import Mathlib

/-!
Verification development for the WhatsApp job-filter pipeline (`src/main.py`).

Shallow embedding conventions:
* Python strings are modelled as `List Char` (`Chars`); `str.strip()` is
  `pyStrip` (trimming whitespace on both ends), `str.lower()` maps
  `Char.toLower` over the characters.
* `datetime.datetime` values are modelled by `PyDateTime`
  (year/month/day/hour/minute/second as `Nat`; naive datetimes, no tzinfo,
  microsecond 0 throughout this code base).  Python compares naive datetimes
  lexicographically on their fields, which `tsLtB` mirrors.
* Fallible operations return `Option`/`Except`.
-/

abbrev Chars := List Char

/-- `\s`-style whitespace test used for Python `str.strip()` and the regex
escapes `\s`; the characters actually occurring in this pipeline are covered
by `Char.isWhitespace`. -/
def wsC (c : Char) : Bool := c.isWhitespace

/-- Python `str.strip()`: drop whitespace from both ends. -/
def pyStrip (cs : Chars) : Chars :=
  ((cs.dropWhile wsC).reverse.dropWhile wsC).reverse

/-- The decimal digit character for `n ≤ 9`. -/
def digitChar (n : Nat) : Char := Char.ofNat (48 + n)

/-- Numeric value of a decimal digit character. -/
def digitVal (c : Char) : Nat := c.toNat - 48

/-- Two-digit zero-padded decimal rendering (`%02d`), for values `≤ 99`. -/
def pad2 (n : Nat) : Chars := [digitChar (n / 10), digitChar (n % 10)]

/-- Four-digit zero-padded decimal rendering, for values `≤ 9999`. -/
def pad4 (n : Nat) : Chars :=
  [digitChar (n / 1000), digitChar (n / 100 % 10), digitChar (n / 10 % 10),
    digitChar (n % 10)]

/-- Model of a (naive) Python `datetime.datetime` at second granularity. -/
structure PyDateTime where
  year : Nat
  month : Nat
  day : Nat
  hour : Nat
  minute : Nat
  second : Nat
deriving DecidableEq, Repr

/-- Gregorian leap-year rule (as used by Python's `datetime`). -/
def isLeap (y : Nat) : Bool := y % 4 == 0 && (y % 100 != 0 || y % 400 == 0)

/-- Days in a month, matching Python's `calendar`/`datetime` validation. -/
def daysInMonth (y m : Nat) : Nat :=
  if m = 2 then (if isLeap y then 29 else 28)
  else if m = 4 ∨ m = 6 ∨ m = 9 ∨ m = 11 then 30
  else 31

/-- The invariant Python's `datetime` constructor enforces on its fields. -/
def ValidDT (t : PyDateTime) : Prop :=
  1 ≤ t.year ∧ t.year ≤ 9999 ∧ 1 ≤ t.month ∧ t.month ≤ 12 ∧
  1 ≤ t.day ∧ t.day ≤ daysInMonth t.year t.month ∧
  t.hour ≤ 23 ∧ t.minute ≤ 59 ∧ t.second ≤ 59

instance (t : PyDateTime) : Decidable (ValidDT t) := by
  unfold ValidDT; infer_instance

/-- Python's `<` on naive datetimes: lexicographic on the fields. -/
def tsLtB (s t : PyDateTime) : Bool :=
  decide (s.year < t.year) ||
  (s.year == t.year && (decide (s.month < t.month) ||
  (s.month == t.month && (decide (s.day < t.day) ||
  (s.day == t.day && (decide (s.hour < t.hour) ||
  (s.hour == t.hour && (decide (s.minute < t.minute) ||
  (s.minute == t.minute && decide (s.second < t.second))))))))))

/-- Propositional form of the lexicographic datetime order. -/
def TsLt (s t : PyDateTime) : Prop :=
  s.year < t.year ∨ (s.year = t.year ∧ (s.month < t.month ∨
  (s.month = t.month ∧ (s.day < t.day ∨
  (s.day = t.day ∧ (s.hour < t.hour ∨
  (s.hour = t.hour ∧ (s.minute < t.minute ∨
  (s.minute = t.minute ∧ s.second < t.second)))))))))

theorem tsLtB_iff (s t : PyDateTime) : tsLtB s t = true ↔ TsLt s t := by
  simp [tsLtB, TsLt]

theorem tsLt_irrefl (t : PyDateTime) : ¬ TsLt t t := by
  unfold TsLt; omega

theorem tsLt_trans {a b c : PyDateTime} (h1 : TsLt a b) (h2 : TsLt b c) :
    TsLt a c := by
  unfold TsLt at *; omega

theorem tsLt_asymm {a b : PyDateTime} (h : TsLt a b) : ¬ TsLt b a := by
  unfold TsLt at *; omega

theorem tsLt_connex {a b : PyDateTime} (h1 : ¬ TsLt a b) (h2 : ¬ TsLt b a) :
    a = b := by
  unfold TsLt at *
  cases a; cases b
  simp only [PyDateTime.mk.injEq]
  simp only at h1 h2
  omega

theorem not_tsLt_trans {a b c : PyDateTime}
    (h1 : ¬ TsLt a b) (h2 : ¬ TsLt b c) : ¬ TsLt a c := by
  unfold TsLt at *; omega

theorem tsLt_of_tsLt_of_not_tsLt {a b c : PyDateTime}
    (h1 : TsLt a b) (h2 : ¬ TsLt c b) : TsLt a c := by
  unfold TsLt at *; omega

/-- `datetime.isoformat()` for microsecond-0 datetimes:
`YYYY-MM-DDTHH:MM:SS`. -/
def isoformat (t : PyDateTime) : Chars :=
  pad4 t.year ++ '-' :: (pad2 t.month ++ '-' :: (pad2 t.day ++
    'T' :: (pad2 t.hour ++ ':' :: (pad2 t.minute ++ ':' :: pad2 t.second))))

/-- A scraped WhatsApp message (`{"sender": ..., "timestamp": ..., "text": ...}`). -/
structure Message where
  sender : Chars
  timestamp : PyDateTime
  text : Chars
deriving DecidableEq, Repr

/-- `message_dedup_key` from `src/main.py`:
`f"{sender}|{timestamp.isoformat()}|{text.strip()}"`. -/
def message_dedup_key (m : Message) : Chars :=
  m.sender ++ '|' :: isoformat m.timestamp ++ '|' :: pyStrip m.text

/-- Loop body of `deduplicate_messages`, carrying the `seen` key set
(modelled as a list with membership). -/
def dedupeGo (seen : List Chars) : List Message → List Message
  | [] => []
  | m :: ms =>
    if message_dedup_key m ∈ seen then dedupeGo seen ms
    else m :: dedupeGo (message_dedup_key m :: seen) ms

/-- `deduplicate_messages` from `src/main.py`. -/
def deduplicate_messages (ms : List Message) : List Message := dedupeGo [] ms

/-- The cutoff filter in `main` (`src/main.py` lines 719-722):
with a cursor, keep messages with `timestamp > last_processed` (strict);
without one, keep everything. -/
def filterByCursor (last : Option PyDateTime) (ms : List Message) :
    List Message :=
  match last with
  | some t => ms.filter (fun m => tsLtB t m.timestamp)
  | none => ms

/-- One step of Python's `max`: keep the current value unless the next one
is strictly greater. -/
def pyMax (cur x : PyDateTime) : PyDateTime := if tsLtB cur x then x else cur

/-- The cursor value persisted at the end of `main`
(`src/main.py` lines 724-727 and 792-794): if the filtered set is empty the
run returns early and the stored cursor is untouched; otherwise
`max(m["timestamp"] for m in messages_to_analyze)` is written.  The sheet
append/email steps do not influence this value (the write at line 792 happens
whether or not any job was classified relevant). -/
def cursorAfterRun (last : Option PyDateTime) (deduped : List Message) :
    Option PyDateTime :=
  match filterByCursor last deduped with
  | [] => last
  | m :: rest => some ((rest.map (·.timestamp)).foldl pyMax m.timestamp)

/-! ### Helper lemmas: message deduplication -/

theorem dedupeGo_key_not_seen {seen : List Chars} {ms : List Message}
    {m : Message} (h : m ∈ dedupeGo seen ms) :
    message_dedup_key m ∉ seen := by
  induction ms generalizing seen with
  | nil => simp [dedupeGo] at h
  | cons x xs ih =>
    by_cases hx : message_dedup_key x ∈ seen
    · rw [dedupeGo, if_pos hx] at h
      exact ih h
    · rw [dedupeGo, if_neg hx] at h
      rcases List.mem_cons.1 h with rfl | h
      · exact hx
      · have := ih h
        intro hc
        exact this (List.mem_cons_of_mem _ hc)

theorem dedupeGo_idem (ms : List Message) :
    ∀ seen : List Chars, dedupeGo seen (dedupeGo seen ms) = dedupeGo seen ms := by
  induction ms with
  | nil => intro seen; simp [dedupeGo]
  | cons x xs ih =>
    intro seen
    by_cases hx : message_dedup_key x ∈ seen
    · rw [dedupeGo, if_pos hx, ih]
    · rw [dedupeGo, if_neg hx, dedupeGo, if_neg hx, ih]

/-! ### Helper lemmas: `pyMax` folds -/

theorem foldl_pyMax_mem (l : List PyDateTime) (a : PyDateTime) :
    l.foldl pyMax a = a ∨ l.foldl pyMax a ∈ l := by
  induction l generalizing a with
  | nil => simp
  | cons b l ih =>
    simp only [List.foldl_cons]
    by_cases hab : tsLtB a b = true
    · have h' : pyMax a b = b := by rw [pyMax, if_pos hab]
      rw [h']
      rcases ih b with h | h
      · right; rw [h]; exact List.mem_cons_self _ _
      · right; exact List.mem_cons_of_mem _ h
    · have h' : pyMax a b = a := by rw [pyMax, if_neg hab]
      rw [h']
      rcases ih a with h | h
      · left; exact h
      · right; exact List.mem_cons_of_mem _ h

theorem foldl_pyMax_ub (l : List PyDateTime) (a : PyDateTime) :
    ∀ x, (x = a ∨ x ∈ l) → ¬ TsLt (l.foldl pyMax a) x := by
  induction l generalizing a with
  | nil =>
    intro x hx
    rcases hx with rfl | h
    · simp only [List.foldl_nil]; exact tsLt_irrefl x
    · simp at h
  | cons b l ih =>
    intro x hx
    have hab : ¬ TsLt (pyMax a b) a ∧ ¬ TsLt (pyMax a b) b := by
      by_cases hlt : tsLtB a b = true
      · rw [pyMax, if_pos hlt]
        rw [tsLtB_iff] at hlt
        exact ⟨tsLt_asymm hlt, tsLt_irrefl b⟩
      · rw [pyMax, if_neg hlt]
        rw [tsLtB_iff] at hlt
        exact ⟨tsLt_irrefl a, hlt⟩
    rcases hx with he | h
    · have h1 := ih (pyMax a b) (pyMax a b) (Or.inl rfl)
      simp only [List.foldl_cons]
      rw [he]
      exact not_tsLt_trans h1 hab.1
    · rcases List.mem_cons.1 h with he | h2
      · have h1 := ih (pyMax a b) (pyMax a b) (Or.inl rfl)
        simp only [List.foldl_cons]
        rw [he]
        exact not_tsLt_trans h1 hab.2
      · simp only [List.foldl_cons]
        exact ih (pyMax a b) x (Or.inr h2)

/-! ### Claim theorems C8, C3, C2 -/

/-- C8: message deduplication is idempotent: for every message sequence `M`,
`deduplicate_messages (deduplicate_messages M) = deduplicate_messages M`. -/
theorem c8_dedupe_idempotent (M : List Message) :
    deduplicate_messages (deduplicate_messages M) = deduplicate_messages M := by
  unfold deduplicate_messages
  exact dedupeGo_idem M []

/-- C3: with a cursor `T` the cutoff filter keeps exactly the messages whose
timestamp is strictly greater than `T` (membership characterisation), as a
sublist of `M` (hence in the original relative order); with the cursor absent
it returns `M` unchanged. -/
theorem c3_filter_correct (T : PyDateTime) (M : List Message) :
    (∀ m, m ∈ filterByCursor (some T) M ↔ m ∈ M ∧ TsLt T m.timestamp) ∧
    (filterByCursor (some T) M).Sublist M ∧
    filterByCursor none M = M := by
  refine ⟨?_, ?_, rfl⟩
  · intro m
    simp only [filterByCursor, List.mem_filter, tsLtB_iff]
  · exact List.filter_sublist M

/-- C2: after a run, (1) the persisted cursor is unchanged when the filtered
message set is empty; (2) when the filtered set is non-empty the cursor is
rewritten to the maximum timestamp over that set (classification outcomes do
not enter `cursorAfterRun` at all, so this holds even with zero relevant
jobs); (3) starting from a stored cursor `T`, the value after the run is
never smaller than `T`, and is strictly greater whenever the filtered set is
non-empty (strict filtering guarantees the new maximum exceeds `T`). -/
theorem c2_cursor_advancement (last : Option PyDateTime)
    (deduped : List Message) :
    (filterByCursor last deduped = [] → cursorAfterRun last deduped = last) ∧
    (∀ m rest, filterByCursor last deduped = m :: rest →
      ∃ T', cursorAfterRun last deduped = some T' ∧
        T' ∈ (m :: rest).map (·.timestamp) ∧
        ∀ s ∈ (m :: rest).map (·.timestamp), ¬ TsLt T' s) ∧
    (∀ T, last = some T →
      (∀ T', cursorAfterRun last deduped = some T' → ¬ TsLt T' T) ∧
      (∀ m rest, filterByCursor last deduped = m :: rest →
        ∀ T', cursorAfterRun last deduped = some T' → TsLt T T')) := by
  refine ⟨?_, ?_, ?_⟩
  · intro h
    unfold cursorAfterRun
    rw [h]
  · intro m rest hf
    refine ⟨(rest.map (·.timestamp)).foldl pyMax m.timestamp, ?_, ?_, ?_⟩
    · unfold cursorAfterRun
      rw [hf]
    · rcases foldl_pyMax_mem (rest.map (·.timestamp)) m.timestamp with h | h
      · rw [h]; exact List.mem_cons_self _ _
      · rw [List.map_cons]; exact List.mem_cons_of_mem _ h
    · intro s hs
      rw [List.map_cons] at hs
      rcases List.mem_cons.1 hs with he | h
      · exact foldl_pyMax_ub _ _ s (Or.inl he)
      · exact foldl_pyMax_ub _ _ s (Or.inr h)
  · intro T hT
    have key : ∀ m rest, filterByCursor last deduped = m :: rest →
        ∀ T', cursorAfterRun last deduped = some T' → TsLt T T' := by
      intro m rest hf T' hT'
      have hT'eq : T' = (rest.map (·.timestamp)).foldl pyMax m.timestamp := by
        unfold cursorAfterRun at hT'
        rw [hf] at hT'
        exact (Option.some.injEq _ _ ▸ hT').symm
      have hmem : (rest.map (·.timestamp)).foldl pyMax m.timestamp = m.timestamp ∨
          (rest.map (·.timestamp)).foldl pyMax m.timestamp ∈ rest.map (·.timestamp) :=
        foldl_pyMax_mem _ _
      have hall : ∀ x ∈ m :: rest, TsLt T x.timestamp := by
        intro x hx
        have hx' : x ∈ filterByCursor last deduped := by rw [hf]; exact hx
        rw [hT] at hx'
        unfold filterByCursor at hx'
        have := List.of_mem_filter hx'
        exact (tsLtB_iff _ _).1 this
      rcases hmem with h | h
      · rw [hT'eq, h]
        exact hall m (List.mem_cons_self _ _)
      · rw [hT'eq]
        rcases List.mem_map.1 h with ⟨x, hx, hxe⟩
        rw [← hxe]
        exact hall x (List.mem_cons_of_mem _ hx)
    refine ⟨?_, key⟩
    intro T' hT'
    cases hfc : filterByCursor last deduped with
    | nil =>
      have : cursorAfterRun last deduped = last := by
        unfold cursorAfterRun; rw [hfc]
      rw [this, hT] at hT'
      have : T' = T := by
        exact (Option.some.injEq _ _ ▸ hT').symm
      rw [this]
      exact tsLt_irrefl T
    | cons m rest =>
      exact tsLt_asymm (key m rest hfc T' hT')

/-- C2 witness: a concrete run — cursor `2026-01-01 00:00`, one filtered
message at `2026-01-02 09:00` — advances the cursor to the new maximum,
which strictly exceeds the old cursor. -/
theorem c2_cursor_advancement_witness :
    cursorAfterRun (some ⟨2026, 1, 1, 0, 0, 0⟩)
        [⟨['A'], ⟨2026, 1, 2, 9, 0, 0⟩, ['h']⟩] = some ⟨2026, 1, 2, 9, 0, 0⟩ ∧
    TsLt ⟨2026, 1, 1, 0, 0, 0⟩ ⟨2026, 1, 2, 9, 0, 0⟩ := by
  refine ⟨by decide, ?_⟩
  exact ((c2_cursor_advancement (some ⟨2026, 1, 1, 0, 0, 0⟩)
      [⟨['A'], ⟨2026, 1, 2, 9, 0, 0⟩, ['h']⟩]).2.2 ⟨2026, 1, 1, 0, 0, 0⟩ rfl).2
    ⟨['A'], ⟨2026, 1, 2, 9, 0, 0⟩, ['h']⟩ [] (by decide)
    ⟨2026, 1, 2, 9, 0, 0⟩ (by decide)

/-! ### Record-level deduplication (`job_dedup_key`, `deduplicate_jobs_for_sheet`) -/

/-- A finalized job record (the 7 business columns written to the sheet). -/
structure Job where
  date : Chars
  company : Chars
  role : Chars
  location : Chars
  experience : Chars
  skills : Chars
  contact_email : Chars
deriving DecidableEq, Repr

/-- `"...".strip().lower()` normalisation applied to both job keys and
sheet-row keys in `src/main.py`. -/
def normKey (cs : Chars) : Chars := (pyStrip cs).map Char.toLower

/-- `job_dedup_key` from `src/main.py`: the `'|'`-joined 7 business fields,
stripped and lowercased. -/
def job_dedup_key (j : Job) : Chars :=
  normKey (j.date ++ '|' :: j.company ++ '|' :: j.role ++ '|' :: j.location ++
    '|' :: j.experience ++ '|' :: j.skills ++ '|' :: j.contact_email)

/-- Key of one persisted sheet row: rows with fewer than 7 cells are skipped
(`if len(row) < 7: continue`); otherwise the first 7 cells are joined with
`'|'`, stripped and lowercased. -/
def rowKey : List Chars → Option Chars
  | c0 :: c1 :: c2 :: c3 :: c4 :: c5 :: c6 :: _ =>
    some (normKey (c0 ++ '|' :: c1 ++ '|' :: c2 ++ '|' :: c3 ++ '|' :: c4 ++
      '|' :: c5 ++ '|' :: c6))
  | _ => none

/-- The `existing_keys` set built from `worksheet.get_all_values()`: the
header row (`existing_rows[1:]`) is skipped, then each sufficiently long row
contributes its key. -/
def existingSheetKeys (rows : List (List Chars)) : List Chars :=
  (rows.drop 1).filterMap rowKey

/-- Loop body of `deduplicate_jobs_for_sheet`: drop a job whose key is in
the persisted-key set or in the within-batch `batch_seen` set; otherwise keep
it and record its key in `batch_seen`. -/
def dedupJobsGo (existing seen : List Chars) : List Job → List Job
  | [] => []
  | j :: js =>
    if job_dedup_key j ∈ existing ∨ job_dedup_key j ∈ seen then
      dedupJobsGo existing seen js
    else j :: dedupJobsGo existing (job_dedup_key j :: seen) js

/-- `deduplicate_jobs_for_sheet` from `src/main.py` (the worksheet argument
is represented by its `get_all_values()` result). -/
def deduplicate_jobs_for_sheet (rows : List (List Chars)) (jobs : List Job) :
    List Job :=
  if jobs = [] then [] else dedupJobsGo (existingSheetKeys rows) [] jobs

theorem dedupJobsGo_sublist (existing : List Chars) (js : List Job) :
    ∀ seen, (dedupJobsGo existing seen js).Sublist js := by
  induction js with
  | nil => intro seen; simp [dedupJobsGo]
  | cons j js ih =>
    intro seen
    by_cases h : job_dedup_key j ∈ existing ∨ job_dedup_key j ∈ seen
    · rw [dedupJobsGo, if_pos h]
      exact (ih seen).cons j
    · rw [dedupJobsGo, if_neg h]
      exact (ih (job_dedup_key j :: seen)).cons₂ j

theorem dedupJobsGo_key_not_in {existing : List Chars} {js : List Job}
    {j : Job} : ∀ {seen}, j ∈ dedupJobsGo existing seen js →
    job_dedup_key j ∉ existing ∧ job_dedup_key j ∉ seen := by
  induction js with
  | nil => intro seen h; simp [dedupJobsGo] at h
  | cons x xs ih =>
    intro seen h
    by_cases hx : job_dedup_key x ∈ existing ∨ job_dedup_key x ∈ seen
    · rw [dedupJobsGo, if_pos hx] at h
      exact ih h
    · rw [dedupJobsGo, if_neg hx] at h
      rcases List.mem_cons.1 h with rfl | h
      · push_neg at hx
        exact hx
      · have h2 := ih h
        refine ⟨h2.1, fun hc => h2.2 (List.mem_cons_of_mem _ hc)⟩

theorem dedupJobsGo_nodup_keys (existing : List Chars) (js : List Job) :
    ∀ seen, ((dedupJobsGo existing seen js).map job_dedup_key).Nodup := by
  induction js with
  | nil => intro seen; simp [dedupJobsGo]
  | cons j js ih =>
    intro seen
    by_cases h : job_dedup_key j ∈ existing ∨ job_dedup_key j ∈ seen
    · rw [dedupJobsGo, if_pos h]
      exact ih seen
    · rw [dedupJobsGo, if_neg h]
      rw [List.map_cons, List.nodup_cons]
      refine ⟨?_, ih _⟩
      intro hc
      rcases List.mem_map.1 hc with ⟨j', hj', he⟩
      have := (dedupJobsGo_key_not_in hj').2
      rw [he] at this
      exact this (List.mem_cons_self _ _)

theorem dedupJobsGo_first_kept (existing : List Chars) (j : Job)
    (js2 : List Job) : ∀ (js1 : List Job) (seen : List Chars),
    job_dedup_key j ∉ existing → job_dedup_key j ∉ seen →
    (∀ j' ∈ js1, job_dedup_key j' ≠ job_dedup_key j) →
    j ∈ dedupJobsGo existing seen (js1 ++ j :: js2) := by
  intro js1
  induction js1 with
  | nil =>
    intro seen he hs _
    rw [List.nil_append, dedupJobsGo, if_neg (by push_neg; exact ⟨he, hs⟩)]
    exact List.mem_cons_self _ _
  | cons x xs ih =>
    intro seen he hs hne
    rw [List.cons_append]
    by_cases hx : job_dedup_key x ∈ existing ∨ job_dedup_key x ∈ seen
    · rw [dedupJobsGo, if_pos hx]
      exact ih seen he hs (fun j' hj' => hne j' (List.mem_cons_of_mem _ hj'))
    · rw [dedupJobsGo, if_neg hx]
      refine List.mem_cons_of_mem _ (ih _ he ?_ ?_)
      · intro hc
        rcases List.mem_cons.1 hc with heq | hc2
        · exact hne x (List.mem_cons_self _ _) heq.symm
        · exact hs hc2
      · intro j' hj'
        exact hne j' (List.mem_cons_of_mem _ hj')

/-- C5: record-level deduplication. For every persisted store contents and
batch: the kept jobs form a sublist of the batch (batch order preserved); no
kept job's normalized key occurs among the keys of persisted rows with at
least 7 cells; kept keys are pairwise distinct (an earlier kept job with the
same key forces a drop); the first batch occurrence of a key absent from the
store is always kept; two batch records with equal keys (e.g. differing only
in letter case) collapse to the first, and a record whose key matches a
persisted row is dropped even as the only batch item. -/
theorem c5_record_dedup (rows : List (List Chars)) (jobs : List Job) :
    (deduplicate_jobs_for_sheet rows jobs).Sublist jobs ∧
    (∀ j ∈ deduplicate_jobs_for_sheet rows jobs,
      job_dedup_key j ∉ existingSheetKeys rows) ∧
    ((deduplicate_jobs_for_sheet rows jobs).map job_dedup_key).Nodup ∧
    (∀ js1 j js2, jobs = js1 ++ j :: js2 →
      job_dedup_key j ∉ existingSheetKeys rows →
      (∀ j' ∈ js1, job_dedup_key j' ≠ job_dedup_key j) →
      j ∈ deduplicate_jobs_for_sheet rows jobs) ∧
    (∀ j1 j2 : Job, job_dedup_key j1 = job_dedup_key j2 →
      job_dedup_key j1 ∉ existingSheetKeys rows →
      deduplicate_jobs_for_sheet rows [j1, j2] = [j1]) ∧
    (∀ j : Job, job_dedup_key j ∈ existingSheetKeys rows →
      deduplicate_jobs_for_sheet rows [j] = []) := by
  refine ⟨?_, ?_, ?_, ?_, ?_, ?_⟩
  · unfold deduplicate_jobs_for_sheet
    split
    · rename_i h; rw [h]
    · exact dedupJobsGo_sublist _ _ []
  · intro j hj
    unfold deduplicate_jobs_for_sheet at hj
    split at hj
    · simp at hj
    · exact (dedupJobsGo_key_not_in hj).1
  · unfold deduplicate_jobs_for_sheet
    split
    · simp
    · exact dedupJobsGo_nodup_keys _ _ []
  · intro js1 j js2 hjobs he hne
    unfold deduplicate_jobs_for_sheet
    split
    · rename_i hnil
      rw [hjobs] at hnil
      simp at hnil
    · rw [hjobs]
      exact dedupJobsGo_first_kept _ j js2 js1 [] he (by simp) hne
  · intro j1 j2 hk he
    rw [deduplicate_jobs_for_sheet, if_neg (by simp)]
    rw [dedupJobsGo, if_neg (by simp [he])]
    rw [dedupJobsGo, if_pos (Or.inr (by rw [← hk]; exact List.mem_cons_self _ _))]
    rw [dedupJobsGo]
  · intro j hj
    rw [deduplicate_jobs_for_sheet, if_neg (by simp)]
    rw [dedupJobsGo, if_pos (Or.inl hj)]
    rw [dedupJobsGo]

/-- C5 witness: two concrete records that differ only in letter case collapse
to the first one against an empty store. -/
theorem c5_record_dedup_witness :
    job_dedup_key ⟨['1'], ['A'], ['Q', 'A'], ['X'], ['2'], ['S'], ['E']⟩ =
      job_dedup_key ⟨['1'], ['a'], ['q', 'a'], ['x'], ['2'], ['s'], ['e']⟩ ∧
    deduplicate_jobs_for_sheet []
      [⟨['1'], ['A'], ['Q', 'A'], ['X'], ['2'], ['S'], ['E']⟩,
       ⟨['1'], ['a'], ['q', 'a'], ['x'], ['2'], ['s'], ['e']⟩] =
      [⟨['1'], ['A'], ['Q', 'A'], ['X'], ['2'], ['S'], ['E']⟩] := by
  refine ⟨by decide, ?_⟩
  exact (c5_record_dedup []
      [⟨['1'], ['A'], ['Q', 'A'], ['X'], ['2'], ['S'], ['E']⟩,
       ⟨['1'], ['a'], ['q', 'a'], ['x'], ['2'], ['s'], ['e']⟩]).2.2.2.2.1
    ⟨['1'], ['A'], ['Q', 'A'], ['X'], ['2'], ['S'], ['E']⟩
    ⟨['1'], ['a'], ['q', 'a'], ['x'], ['2'], ['s'], ['e']⟩
    (by decide) (by decide)

/-! ### Classification client (`clean_key`, `analyze_job_post`) -/

/-- Atomic JSON values as they occur in classification responses.  (Nested
arrays/objects in field values are not needed by any claim and are omitted;
a response that is not a JSON object at top level is subsumed by the
"attempt fails" case below, since `{**schema_template, **payload}` raises
`TypeError` on a non-mapping.) -/
inductive JVal where
  | str : String → JVal
  | num : Int → JVal
  | bool : Bool → JVal
  | null : JVal
deriving DecidableEq, Repr

/-- Python truthiness (`bool(x)`) on the modelled JSON values. -/
def truthy : JVal → Bool
  | .str s => s ≠ ""
  | .num n => n ≠ 0
  | .bool b => b
  | .null => false

/-- A parsed JSON object (a Python dict), as an association list in key
order; `json.loads` never produces duplicate keys. -/
abbrev JObj := List (String × JVal)

/-- `schema_template` from `analyze_job_post`. -/
def schema_template : JObj :=
  [("relevant", .bool false), ("company", .str ""), ("role", .str ""),
   ("location", .str ""), ("experience", .str ""), ("skills", .str ""),
   ("contact_email", .str "")]

/-- Python `{**base, **payload}`: base keys in base order with values
overridden by the payload where present, followed by payload-only keys in
payload order. -/
def pyDictMerge (base payload : JObj) : JObj :=
  base.map (fun kv => (kv.1, (payload.lookup kv.1).getD kv.2)) ++
    payload.filter (fun kv => (base.lookup kv.1).isNone)

/-- `result["relevant"] = bool(result.get("relevant", False))`. -/
def set_relevant (r : JObj) : JObj :=
  r.map (fun kv =>
    if kv.1 = "relevant" then
      (kv.1, .bool (truthy ((r.lookup "relevant").getD (.bool false))))
    else kv)

/-- The mapping `analyze_job_post` returns when an attempt's response parses
to the JSON object `payload`. -/
def mergeResult (payload : JObj) : JObj :=
  set_relevant (pyDictMerge schema_template payload)

/-- `clean_key` from `src/main.py`: strip the configured value and reject
empty or placeholder keys (`{"replace_me", "none", "null"}`,
case-insensitively). -/
def clean_key (value : Chars) : Chars :=
  let key := pyStrip value
  if key = [] ∨ key.map Char.toLower = "replace_me".toList ∨
      key.map Char.toLower = "none".toList ∨
      key.map Char.toLower = "null".toList then []
  else key

/-- Observable outcome of the retry loop in `analyze_job_post`: the returned
mapping, how many times the external call was attempted, and the sequence of
back-off sleeps (in seconds, exact rationals) in the order they happened. -/
structure RunTrace where
  result : JObj
  attempts : Nat
  sleeps : List ℚ
deriving DecidableEq, Repr

/-- The `for attempt in range(1, retries + 1)` loop of `analyze_job_post`.
`oracle n` is the outcome of attempt `n` against the external service:
`some payload` when the call returns and its content parses as a JSON
object, `none` when anything in the attempt raises (network error, non-2xx
status, malformed JSON, non-mapping payload).  `attempt` is the 1-based
number of the current attempt, `remaining` the number of loop iterations
still available (`retries - attempt + 1`). -/
def analyzeGo (oracle : Nat → Option JObj) (d : ℚ) :
    Nat → Nat → RunTrace
  | _, 0 => ⟨schema_template, 0, []⟩
  | attempt, remaining + 1 =>
    match oracle attempt with
    | some payload => ⟨mergeResult payload, 1, []⟩
    | none =>
      if remaining = 0 then ⟨schema_template, 1, []⟩
      else
        let rest := analyzeGo oracle d (attempt + 1) remaining
        ⟨rest.result, rest.attempts + 1, d * 2 ^ (attempt - 1) :: rest.sleeps⟩

/-- `analyze_job_post` from `src/main.py`.  The message `text` only feeds the
prompt (hence the oracle); it does not influence control flow.  An empty
cleaned key raises `RuntimeError` before any attempt, modelled as `.error`
with the exception message. -/
def analyze_job_post (text : Chars) (openrouter_key : Chars)
    (oracle : Nat → Option JObj) (retries : Nat) (initial_delay : ℚ) :
    Except String RunTrace :=
  if clean_key openrouter_key = [] then
    .error "No LLM API key configured (OPENROUTER_API_KEY)"
  else
    .ok (analyzeGo oracle initial_delay 1 retries)

theorem analyzeGo_all_fail (oracle : Nat → Option JObj) (d : ℚ)
    (hfail : ∀ n, oracle n = none) :
    ∀ remaining attempt, 1 ≤ attempt →
      analyzeGo oracle d attempt remaining =
        ⟨schema_template, remaining,
          (List.range (remaining - 1)).map (fun i => d * 2 ^ (attempt - 1 + i))⟩ := by
  intro remaining
  induction remaining with
  | zero => intro attempt _; simp [analyzeGo]
  | succ n ih =>
    intro attempt ha
    rw [analyzeGo, hfail attempt]
    cases n with
    | zero => simp
    | succ m =>
      rw [if_neg (Nat.succ_ne_zero m)]
      rw [ih (attempt + 1) (by omega)]
      simp only [Nat.add_sub_cancel, Nat.succ_sub_one]
      congr 1
      rw [List.range_succ_eq_map, List.map_cons, List.map_map]
      have hfun : ((fun i => d * 2 ^ (attempt - 1 + i)) ∘ Nat.succ) =
          (fun i => d * 2 ^ (attempt + i)) := by
        funext i
        have h2 : attempt - 1 + Nat.succ i = attempt + i := by omega
        simp only [Function.comp_apply, h2]
      rw [hfun]
      simp

/-- C1: if every classification attempt fails, `analyze_job_post` returns the
zero-valued default schema, the external call is attempted exactly `retries`
times, and the sleeps between consecutive attempts are
`initial_delay * 2 ^ (attempt - 1)` for attempts `1, ..., retries - 1`
(no sleep after the final attempt: there are `retries - 1` sleeps). -/
theorem c1_fail_open (text : Chars) (key : Chars) (retries : Nat) (d : ℚ)
    (oracle : Nat → Option JObj) (hkey : clean_key key ≠ [])
    (hfail : ∀ n, oracle n = none) :
    analyze_job_post text key oracle retries d =
      .ok ⟨schema_template, retries,
        (List.range (retries - 1)).map (fun i => d * 2 ^ i)⟩ := by
  rw [analyze_job_post, if_neg hkey]
  rw [analyzeGo_all_fail oracle d hfail retries 1 (le_refl 1)]
  simp

/-- C1 witness: with the default `retries = 3`, `initial_delay = 2` and an
always-failing service, the result is the default schema after exactly 3
attempts with sleeps of 2 s then 4 s. -/
theorem c1_fail_open_witness :
    analyze_job_post [] ['k'] (fun _ => none) 3 2 =
      .ok ⟨schema_template, 3, [2, 4]⟩ := by
  have h := c1_fail_open [] ['k'] 3 2 (fun _ => none) (by decide) (fun _ => rfl)
  rw [h]
  norm_num [List.range_succ]

/-- The schema keys `analyze_job_post` guarantees in its result. -/
def schemaKeys : List String :=
  ["relevant", "company", "role", "location", "experience", "skills",
   "contact_email"]

theorem schema_template_keys :
    ∀ k ∈ schemaKeys, (schema_template.lookup k).isSome := by
  intro k hk
  simp only [schemaKeys, List.mem_cons, List.not_mem_nil, or_false] at hk
  rcases hk with rfl | rfl | rfl | rfl | rfl | rfl | rfl <;> rfl

theorem mergeResult_keys (payload : JObj) :
    ∀ k ∈ schemaKeys, ((mergeResult payload).lookup k).isSome := by
  intro k hk
  simp only [schemaKeys, List.mem_cons, List.not_mem_nil, or_false] at hk
  rcases hk with rfl | rfl | rfl | rfl | rfl | rfl | rfl <;> rfl

theorem analyzeGo_result_shape (oracle : Nat → Option JObj) (d : ℚ) :
    ∀ remaining attempt,
      (analyzeGo oracle d attempt remaining).result = schema_template ∨
      ∃ p, (analyzeGo oracle d attempt remaining).result = mergeResult p := by
  intro remaining
  induction remaining with
  | zero => intro attempt; left; rfl
  | succ n ih =>
    intro attempt
    cases horacle : oracle attempt with
    | some p =>
      rw [analyzeGo, horacle]
      right
      exact ⟨p, rfl⟩
    | none =>
      rw [analyzeGo, horacle]
      by_cases hn : n = 0
      · rw [if_pos hn]
        left
        rfl
      · rw [if_neg hn]
        exact ih (attempt + 1)

/-- C6: whenever the classification service returns a JSON object `payload`,
the mapping `analyze_job_post` returns (here for a first-attempt success)
contains all 7 business fields plus `relevant`; each business field takes the
payload's value when present and the zero-valued default `""` otherwise, and
`relevant` is coerced to a boolean (Python truthiness of the payload value,
defaulting to `False`). -/
theorem c6_schema_merge (payload : JObj) :
    ((mergeResult payload).lookup "relevant" =
        some (.bool (truthy ((payload.lookup "relevant").getD (.bool false)))) ∧
      (mergeResult payload).lookup "company" =
        some ((payload.lookup "company").getD (.str "")) ∧
      (mergeResult payload).lookup "role" =
        some ((payload.lookup "role").getD (.str "")) ∧
      (mergeResult payload).lookup "location" =
        some ((payload.lookup "location").getD (.str "")) ∧
      (mergeResult payload).lookup "experience" =
        some ((payload.lookup "experience").getD (.str "")) ∧
      (mergeResult payload).lookup "skills" =
        some ((payload.lookup "skills").getD (.str "")) ∧
      (mergeResult payload).lookup "contact_email" =
        some ((payload.lookup "contact_email").getD (.str ""))) ∧
    (∀ (text key : Chars) (oracle : Nat → Option JObj) (retries : Nat) (d : ℚ),
      clean_key key ≠ [] → oracle 1 = some payload → 1 ≤ retries →
      analyze_job_post text key oracle retries d =
        .ok ⟨mergeResult payload, 1, []⟩) := by
  refine ⟨⟨rfl, rfl, rfl, rfl, rfl, rfl, rfl⟩, ?_⟩
  intro text key oracle retries d hkey h1 hr
  rw [analyze_job_post, if_neg hkey]
  cases retries with
  | zero => omega
  | succ n => rw [analyzeGo, h1]

/-- C6 witness: a concrete payload `{"relevant": true, "company": "Acme"}`
merged over the default schema — missing keys are filled, `relevant` is a
boolean, and a run whose first attempt succeeds returns exactly this
mapping. -/
theorem c6_schema_merge_witness :
    analyze_job_post [] ['k']
        (fun _ => some [("relevant", .bool true), ("company", .str "Acme")])
        3 2 =
      .ok ⟨mergeResult [("relevant", .bool true), ("company", .str "Acme")],
        1, []⟩ ∧
    (mergeResult [("relevant", .bool true), ("company", .str "Acme")]).lookup
        "company" = some (.str "Acme") ∧
    (mergeResult [("relevant", .bool true), ("company", .str "Acme")]).lookup
        "role" = some (.str "") := by
  refine ⟨?_, by decide, by decide⟩
  exact (c6_schema_merge [("relevant", .bool true), ("company", .str "Acme")]).2
    [] ['k'] (fun _ => some [("relevant", .bool true), ("company", .str "Acme")])
    3 2 (by decide) rfl (by decide)

/-- C7 counterexample: with the API key configured as the empty string,
`clean_key` rejects it and `analyze_job_post` raises
`RuntimeError("No LLM API key configured (OPENROUTER_API_KEY)")` before any
attempt — refuting "never raises for every API-key configuration value". -/
theorem c7_counterexample :
    analyze_job_post [] [] (fun _ => none) 3 2 =
      .error "No LLM API key configured (OPENROUTER_API_KEY)" := rfl

/-- C7 amended: for every text, every service behaviour (including raising on
every call) and every retry budget, provided the configured API key survives
`clean_key` (non-empty, not a placeholder), `analyze_job_post` returns a
ClassifiedJob-shaped mapping — an `.ok` trace whose result carries all 7
business fields plus `relevant` — and never raises past its own boundary.
(With an empty/placeholder key it instead raises `RuntimeError` before the
first attempt, per `c7_counterexample`.) -/
theorem c7_total_when_key_configured (text key : Chars)
    (oracle : Nat → Option JObj) (retries : Nat) (d : ℚ)
    (hkey : clean_key key ≠ []) :
    ∃ tr : RunTrace, analyze_job_post text key oracle retries d = .ok tr ∧
      ∀ k ∈ schemaKeys, ((tr.result).lookup k).isSome := by
  refine ⟨analyzeGo oracle d 1 retries, ?_, ?_⟩
  · rw [analyze_job_post, if_neg hkey]
  · rcases analyzeGo_result_shape oracle d retries 1 with h | ⟨p, h⟩
    · rw [h]
      exact schema_template_keys
    · rw [h]
      exact mergeResult_keys p

/-- C7 witness: a configured key and an always-raising service still produce
an `.ok`, schema-shaped result. -/
theorem c7_total_when_key_configured_witness :
    ∃ tr : RunTrace, analyze_job_post [] ['k'] (fun _ => none) 3 2 = .ok tr ∧
      ∀ k ∈ schemaKeys, ((tr.result).lookup k).isSome :=
  c7_total_when_key_configured [] ['k'] (fun _ => none) 3 2 (by decide)

/-! ### Header parsing (`parse_pre_plain_text`) and `strftime`/`strptime`

The 8 entries of `date_formats` differ in three independent choices:
month/day vs day/month order, 4- vs 2-digit year, 12-hour+meridiem vs
24-hour time.  `strptime` is modelled after CPython's `_strptime`: each
numeric directive matches the regex classes `%m → 1[0-2]|0[1-9]|[1-9]`,
`%d → 3[01]|[12]\d|0[1-9]|[1-9]`, `%Y → \d\d\d\d`, `%y → \d\d`,
`%I → 1[0-2]|0[1-9]|[1-9]`, `%H → 2[0-3]|[0-1]\d|\d`, `%M → [0-5]\d|\d`;
since every directive here is delimited by a non-digit literal, each one
consumes a maximal digit run, and the class constraints become conditions on
the run's value and length.  `%y` pivots `00-68 → 2000-2068`,
`69-99 → 1969-1999`.  The final `datetime` construction validates the
calendar date, and the whole input must be consumed. -/

structure DateFmt where
  dayFirst : Bool
  twoDigitYear : Bool
  twelveHour : Bool
deriving DecidableEq, Repr

/-- The ordered `date_formats` list from `parse_pre_plain_text`:
`%m/%d/%Y %I:%M %p`, `%d/%m/%Y %I:%M %p`, `%m/%d/%y %I:%M %p`,
`%d/%m/%y %I:%M %p`, `%m/%d/%Y %H:%M`, `%d/%m/%Y %H:%M`,
`%m/%d/%y %H:%M`, `%d/%m/%y %H:%M`. -/
def date_formats : List DateFmt :=
  [⟨false, false, true⟩, ⟨true, false, true⟩, ⟨false, true, true⟩,
   ⟨true, true, true⟩, ⟨false, false, false⟩, ⟨true, false, false⟩,
   ⟨false, true, false⟩, ⟨true, true, false⟩]

/-- `strftime %I`: 12-hour clock value of an hour. -/
def hour12 (h : Nat) : Nat := if h % 12 = 0 then 12 else h % 12

/-- `strftime %p` (C locale): `AM` before noon, `PM` from noon on. -/
def meridiem (h : Nat) : Chars := if h < 12 then ['A', 'M'] else ['P', 'M']

/-- The `<time>` part a given template renders (`%I:%M %p` or `%H:%M`). -/
def fmtTime (f : DateFmt) (t : PyDateTime) : Chars :=
  pad2 (if f.twelveHour then hour12 t.hour else t.hour) ++
    ':' :: (pad2 t.minute ++
      (if f.twelveHour then ' ' :: meridiem t.hour else []))

/-- The `<date>` part a given template renders (`%m/%d/` or `%d/%m/`
followed by `%Y` or `%y`). -/
def fmtDate (f : DateFmt) (t : PyDateTime) : Chars :=
  pad2 (if f.dayFirst then t.day else t.month) ++
    '/' :: (pad2 (if f.dayFirst then t.month else t.day) ++
      '/' :: (if f.twoDigitYear then pad2 (t.year % 100) else pad4 t.year))

/-- A synthesized WhatsApp `data-pre-plain-text` header
`"[<time>, <date>] <sender>:"`. -/
def mkHeader (f : DateFmt) (sender : Chars) (t : PyDateTime) : Chars :=
  '[' :: (fmtTime f t ++ ',' :: (' ' :: (fmtDate f t ++
    ']' :: (' ' :: (sender ++ [':'])))))

/-- Value of a string of decimal digits. -/
def digitsToNat (ds : Chars) : Nat := ds.foldl (fun a c => 10 * a + digitVal c) 0

/-- Consume a maximal non-empty digit run; return its value, its length and
the remaining input. -/
def parseNum (cs : Chars) : Option (Nat × Nat × Chars) :=
  let ds := cs.takeWhile Char.isDigit
  if ds = [] then none
  else some (digitsToNat ds, ds.length, cs.dropWhile Char.isDigit)

/-- Consume one expected literal character. -/
def expectChar (c : Char) : Chars → Option Chars
  | x :: rest => if x = c then some rest else none
  | [] => none

/-- The numeric tokens of a `A/B/Y H:M...` string: values, digit-run lengths
and the tail after the minutes. -/
structure RawFields where
  a : Nat
  la : Nat
  b : Nat
  lb : Nat
  y : Nat
  ly : Nat
  h : Nat
  lh : Nat
  mi : Nat
  lm : Nat
  tl : Chars
deriving DecidableEq, Repr

/-- Tokenize `A/B/Y H:M⟨tail⟩` (shared by all 8 templates: they differ only
in how the tokens are interpreted and in the expected tail). -/
def tokenizeDT (cs : Chars) : Option RawFields := do
  let (a, la, cs1) ← parseNum cs
  let cs2 ← expectChar '/' cs1
  let (b, lb, cs3) ← parseNum cs2
  let cs4 ← expectChar '/' cs3
  let (y, ly, cs5) ← parseNum cs4
  let cs6 ← expectChar ' ' cs5
  let (h, lh, cs7) ← parseNum cs6
  let cs8 ← expectChar ':' cs7
  let (mi, lm, cs9) ← parseNum cs8
  return ⟨a, la, b, lb, y, ly, h, lh, mi, lm, cs9⟩

/-- `datetime(...)` construction at the end of `strptime`: validates the
calendar date and clock values. -/
def mkDT (y mo d h mi : Nat) : Option PyDateTime :=
  if 1 ≤ y ∧ y ≤ 9999 ∧ 1 ≤ mo ∧ mo ≤ 12 ∧ 1 ≤ d ∧ d ≤ daysInMonth y mo ∧
      h ≤ 23 ∧ mi ≤ 59 then
    some ⟨y, mo, d, h, mi, 0⟩
  else none

/-- `%Y` (exactly 4 digits, value taken as-is) vs `%y` (exactly 2 digits,
pivoted: `00-68 → 2000s`, `69-99 → 1900s`). -/
def yearResolve (f : DateFmt) (yv ly : Nat) : Option Nat :=
  if f.twoDigitYear then
    if ly = 2 then some (if yv ≤ 68 then 2000 + yv else 1900 + yv) else none
  else if ly = 4 then some yv else none

/-- Interpret tokenized fields under one template: the regex-class
constraints on each directive, the year resolution, the meridiem tail for
12-hour templates (none for 24-hour ones, which must end after the minutes),
and the final `datetime` validation.  `%I`+`AM` maps 12 → 0; `%I`+`PM` maps
1-11 → 13-23 and keeps 12.  `monthOf`/`dayOf` select which token is the
month/day slot under a template. -/
def monthOf (f : DateFmt) (r : RawFields) : Nat := if f.dayFirst then r.b else r.a

/-- The day slot of the tokenized fields under a template. -/
def dayOf (f : DateFmt) (r : RawFields) : Nat := if f.dayFirst then r.a else r.b

/-- The digit-run length of the month slot. -/
def lmonthOf (f : DateFmt) (r : RawFields) : Nat :=
  if f.dayFirst then r.lb else r.la

/-- The digit-run length of the day slot. -/
def ldayOf (f : DateFmt) (r : RawFields) : Nat :=
  if f.dayFirst then r.la else r.lb

def afterTok (f : DateFmt) (r : RawFields) : Option PyDateTime :=
  if lmonthOf f r ≤ 2 ∧ 1 ≤ monthOf f r ∧ monthOf f r ≤ 12 then
    if ldayOf f r ≤ 2 ∧ 1 ≤ dayOf f r ∧ dayOf f r ≤ 31 then
      if r.lm ≤ 2 ∧ r.mi ≤ 59 then
        match yearResolve f r.y r.ly with
        | none => none
        | some year =>
          if f.twelveHour then
            if r.lh ≤ 2 ∧ 1 ≤ r.h ∧ r.h ≤ 12 then
              match r.tl with
              | [' ', 'A', 'M'] => mkDT year (monthOf f r) (dayOf f r) (r.h % 12) r.mi
              | [' ', 'P', 'M'] => mkDT year (monthOf f r) (dayOf f r) (r.h % 12 + 12) r.mi
              | _ => none
            else none
          else
            if r.lh ≤ 2 ∧ r.h ≤ 23 then
              match r.tl with
              | [] => mkDT year (monthOf f r) (dayOf f r) r.h r.mi
              | _ => none
            else none
      else none
    else none
  else none

/-- `datetime.strptime(combined, fmt)` for one of the 8 templates. -/
def strptimeDT (f : DateFmt) (cs : Chars) : Option PyDateTime :=
  (tokenizeDT cs).bind (afterTok f)

/-- Try the templates in order; first success wins. -/
def tryFormats : List DateFmt → Chars → Option PyDateTime
  | [], _ => none
  | f :: fs, cs =>
    match strptimeDT f cs with
    | some dt => some dt
    | none => tryFormats fs cs

/-- Tail check for the regex suffix `:\s?$` applied to a stripped string:
after the colon there is nothing, or a single whitespace character. -/
def validTailAfterColon : Chars → Bool
  | [] => true
  | [c] => wsC c
  | _ => false

/-- The lazy group `(?P<sender>.*?)` followed by `:\s?$`: scan left to
right, matching the earliest `:` whose tail is valid; `.` does not match a
newline, so a `\n` before that point fails the whole match. -/
def scanSender : Chars → Option Chars
  | [] => none
  | c :: rest =>
    if c = ':' && validTailAfterColon rest then some []
    else if c = '\n' then none
    else (scanSender rest).map (fun s => c :: s)

/-- The anchored header regex
`^\[(?P<time>[^,\]]+),\s(?P<date>[^\]]+)\]\s(?P<sender>.*?):\s?$`
on an (already stripped) input: the `time` group is a maximal run of
non-`,`/`]` characters, the `date` group a maximal run of non-`]`
characters (no backtracking is possible since the closing literals are
excluded from the classes), each `\s` one whitespace character. -/
def matchHeader (cs : Chars) : Option (Chars × Chars × Chars) :=
  match cs with
  | '[' :: rest =>
    let p1 := rest.span (fun c => c ≠ ',' && c ≠ ']')
    if p1.1 = [] then none
    else
      match p1.2 with
      | ',' :: w1 :: r2 =>
        if wsC w1 then
          let p2 := r2.span (fun c => c ≠ ']')
          if p2.1 = [] then none
          else
            match p2.2 with
            | ']' :: w2 :: r4 =>
              if wsC w2 then
                (scanSender r4).map (fun sender => (p1.1, p2.1, sender))
              else none
            | _ => none
        else none
      | _ => none
  | _ => none

/-- `parse_pre_plain_text` from `src/main.py`: strip the input, match the
header regex, strip the three groups, build `f"{date_part} {time_part}"`,
and try the 8 `date_formats` in order. -/
def parse_pre_plain_text (cs : Chars) : Option (Chars × PyDateTime) :=
  match matchHeader (pyStrip cs) with
  | none => none
  | some (timeG, dateG, senderG) =>
    match tryFormats date_formats (pyStrip dateG ++ ' ' :: pyStrip timeG) with
    | none => none
    | some dt => some (pyStrip senderG, dt)

/-! ### Digit and scanning lemmas for the header round-trip -/

theorem digit_facts (n : Nat) (h : n ≤ 9) :
    (digitChar n).isDigit = true ∧ wsC (digitChar n) = false ∧
    digitChar n ≠ ',' ∧ digitChar n ≠ ']' ∧ digitChar n ≠ '/' ∧
    digitChar n ≠ ':' ∧ digitChar n ≠ '\n' ∧ digitVal (digitChar n) = n := by
  interval_cases n <;> decide

theorem pad2_all_digit (n : Nat) (h : n ≤ 99) :
    ∀ c ∈ pad2 n, c.isDigit = true := by
  intro c hc
  simp only [pad2, List.mem_cons, List.not_mem_nil, or_false] at hc
  rcases hc with rfl | rfl
  · exact (digit_facts (n / 10) (by omega)).1
  · exact (digit_facts (n % 10) (by omega)).1

theorem pad4_all_digit (n : Nat) (h : n ≤ 9999) :
    ∀ c ∈ pad4 n, c.isDigit = true := by
  intro c hc
  simp only [pad4, List.mem_cons, List.not_mem_nil, or_false] at hc
  rcases hc with rfl | rfl | rfl | rfl
  · exact (digit_facts (n / 1000) (by omega)).1
  · exact (digit_facts (n / 100 % 10) (by omega)).1
  · exact (digit_facts (n / 10 % 10) (by omega)).1
  · exact (digit_facts (n % 10) (by omega)).1

theorem takeWhile_all_append {p : Char → Bool} {l1 l2 : Chars}
    (h1 : ∀ c ∈ l1, p c = true) (h2 : ∀ c ∈ l2.head?, p c = false) :
    (l1 ++ l2).takeWhile p = l1 := by
  induction l1 with
  | nil =>
    cases l2 with
    | nil => rfl
    | cons c r =>
      simp only [List.nil_append]
      exact List.takeWhile_cons_of_neg (by simp [h2 c rfl])
  | cons a l ih =>
    simp only [List.cons_append]
    rw [List.takeWhile_cons_of_pos (h1 a (List.mem_cons_self a l)),
      ih (fun c hc => h1 c (List.mem_cons_of_mem _ hc))]

theorem dropWhile_all_append {p : Char → Bool} {l1 l2 : Chars}
    (h1 : ∀ c ∈ l1, p c = true) (h2 : ∀ c ∈ l2.head?, p c = false) :
    (l1 ++ l2).dropWhile p = l2 := by
  induction l1 with
  | nil =>
    cases l2 with
    | nil => rfl
    | cons c r =>
      simp only [List.nil_append]
      exact List.dropWhile_cons_of_neg (by simp [h2 c rfl])
  | cons a l ih =>
    simp only [List.cons_append]
    rw [List.dropWhile_cons_of_pos (h1 a (List.mem_cons_self a l)),
      ih (fun c hc => h1 c (List.mem_cons_of_mem _ hc))]

theorem span_all_append {p : Char → Bool} {l1 l2 : Chars}
    (h1 : ∀ c ∈ l1, p c = true) (h2 : ∀ c ∈ l2.head?, p c = false) :
    (l1 ++ l2).span p = (l1, l2) := by
  rw [List.span_eq_take_drop, takeWhile_all_append h1 h2,
    dropWhile_all_append h1 h2]

theorem parseNum_digits {ys : Chars} (rest : Chars)
    (hys : ∀ c ∈ ys, c.isDigit = true) (hne : ys ≠ [])
    (hr : ∀ c ∈ rest.head?, c.isDigit = false) :
    parseNum (ys ++ rest) = some (digitsToNat ys, ys.length, rest) := by
  unfold parseNum
  rw [takeWhile_all_append hys hr, dropWhile_all_append hys hr, if_neg hne]

theorem digitsToNat_pad2 (n : Nat) (h : n ≤ 99) : digitsToNat (pad2 n) = n := by
  simp only [digitsToNat, pad2, List.foldl_cons, List.foldl_nil]
  rw [(digit_facts (n / 10) (by omega)).2.2.2.2.2.2.2,
    (digit_facts (n % 10) (by omega)).2.2.2.2.2.2.2]
  omega

theorem digitsToNat_pad4 (n : Nat) (h : n ≤ 9999) :
    digitsToNat (pad4 n) = n := by
  simp only [digitsToNat, pad4, List.foldl_cons, List.foldl_nil]
  rw [(digit_facts (n / 1000) (by omega)).2.2.2.2.2.2.2,
    (digit_facts (n / 100 % 10) (by omega)).2.2.2.2.2.2.2,
    (digit_facts (n / 10 % 10) (by omega)).2.2.2.2.2.2.2,
    (digit_facts (n % 10) (by omega)).2.2.2.2.2.2.2]
  omega

theorem parseNum_pad2 (n : Nat) (h : n ≤ 99) (rest : Chars)
    (hr : ∀ c ∈ rest.head?, c.isDigit = false) :
    parseNum (pad2 n ++ rest) = some (n, 2, rest) := by
  rw [parseNum_digits rest (pad2_all_digit n h) (by simp [pad2]) hr,
    digitsToNat_pad2 n h]
  rfl

theorem parseNum_pad4 (n : Nat) (h : n ≤ 9999) (rest : Chars)
    (hr : ∀ c ∈ rest.head?, c.isDigit = false) :
    parseNum (pad4 n ++ rest) = some (n, 4, rest) := by
  rw [parseNum_digits rest (pad4_all_digit n h) (by simp [pad4]) hr,
    digitsToNat_pad4 n h]
  rfl

theorem head_notDigit {c0 : Char} (r : Chars) (h : c0.isDigit = false) :
    ∀ c ∈ ((c0 :: r) : Chars).head?, c.isDigit = false := by
  intro c hc
  rw [List.head?_cons, Option.mem_some_iff] at hc
  rw [← hc]
  exact h

theorem expectChar_cons (c : Char) (r : Chars) : expectChar c (c :: r) = some r := by
  simp [expectChar]

theorem tokenizeDT_synth (A B H5 M5 : Nat) (ys tl : Chars)
    (hA : A ≤ 99) (hB : B ≤ 99) (hH : H5 ≤ 99) (hM : M5 ≤ 99)
    (hys : ∀ c ∈ ys, c.isDigit = true) (hysne : ys ≠ [])
    (htl : ∀ c ∈ tl.head?, c.isDigit = false) :
    tokenizeDT (pad2 A ++ '/' :: (pad2 B ++ '/' :: (ys ++ ' ' ::
        (pad2 H5 ++ ':' :: (pad2 M5 ++ tl))))) =
      some ⟨A, 2, B, 2, digitsToNat ys, ys.length, H5, 2, M5, 2, tl⟩ := by
  unfold tokenizeDT
  rw [parseNum_pad2 A hA _ (head_notDigit _ (by decide))]
  simp only [Option.bind_eq_bind, Option.some_bind]
  rw [expectChar_cons]
  simp only [Option.bind_eq_bind, Option.some_bind]
  rw [parseNum_pad2 B hB _ (head_notDigit _ (by decide))]
  simp only [Option.bind_eq_bind, Option.some_bind]
  rw [expectChar_cons]
  simp only [Option.bind_eq_bind, Option.some_bind]
  rw [parseNum_digits _ hys hysne (head_notDigit _ (by decide))]
  simp only [Option.bind_eq_bind, Option.some_bind]
  rw [expectChar_cons]
  simp only [Option.bind_eq_bind, Option.some_bind]
  rw [parseNum_pad2 H5 hH _ (head_notDigit _ (by decide))]
  simp only [Option.bind_eq_bind, Option.some_bind]
  rw [expectChar_cons]
  simp only [Option.bind_eq_bind, Option.some_bind]
  rw [parseNum_pad2 M5 hM _ htl]
  simp only [Option.bind_eq_bind, Option.some_bind]
  rfl

theorem afterTok_none_yearLen (f : DateFmt) (r : RawFields)
    (h : yearResolve f r.y r.ly = none) : afterTok f r = none := by
  unfold afterTok
  split
  · split
    · split
      · rw [h]
      · rfl
    · rfl
  · rfl

theorem afterTok_none_month (f : DateFmt) (r : RawFields)
    (h : 12 < monthOf f r) : afterTok f r = none := by
  unfold afterTok
  rw [if_neg (by omega)]

theorem afterTok_none_twelve_nil (f : DateFmt) (r : RawFields)
    (hf : f.twelveHour = true) (ht : r.tl = []) : afterTok f r = none := by
  unfold afterTok
  split
  · split
    · split
      · cases hyr : yearResolve f r.y r.ly with
        | none => rfl
        | some year =>
          simp only [hf, if_true]
          split
          · rw [ht]
          · rfl
      · rfl
    · rfl
  · rfl

theorem daysInMonth_le_31 (y m : Nat) : daysInMonth y m ≤ 31 := by
  unfold daysInMonth
  split
  · split <;> omega
  · split <;> omega

theorem hour12_le (h : Nat) : 1 ≤ hour12 h ∧ hour12 h ≤ 12 := by
  unfold hour12
  split <;> omega

/-- The tokenized fields of a synthesized `<date> <time>` string under the
template that rendered it. -/
def synthRF (f : DateFmt) (t : PyDateTime) : RawFields :=
  ⟨(if f.dayFirst then t.day else t.month), 2,
   (if f.dayFirst then t.month else t.day), 2,
   (if f.twoDigitYear then t.year % 100 else t.year),
   (if f.twoDigitYear then 2 else 4),
   (if f.twelveHour then hour12 t.hour else t.hour), 2,
   t.minute, 2,
   (if f.twelveHour then ' ' :: meridiem t.hour else [])⟩

theorem tokenize_combined (f : DateFmt) (t : PyDateTime) (hv : ValidDT t) :
    tokenizeDT (fmtDate f t ++ ' ' :: fmtTime f t) = some (synthRF f t) := by
  obtain ⟨v1, v2, v3, v4, v5, v6, v7, v8, v9⟩ := hv
  have hd31 : t.day ≤ 31 := le_trans v6 (daysInMonth_le_31 _ _)
  have hshape : fmtDate f t ++ ' ' :: fmtTime f t =
      pad2 (if f.dayFirst then t.day else t.month) ++ '/' ::
        (pad2 (if f.dayFirst then t.month else t.day) ++ '/' ::
          ((if f.twoDigitYear then pad2 (t.year % 100) else pad4 t.year) ++
            ' ' ::
            (pad2 (if f.twelveHour then hour12 t.hour else t.hour) ++ ':' ::
              (pad2 t.minute ++
                (if f.twelveHour then ' ' :: meridiem t.hour else []))))) := by
    simp [fmtDate, fmtTime, List.append_assoc]
  rw [hshape]
  rw [tokenizeDT_synth _ _ _ _ _ _
    (by split <;> omega)
    (by split <;> omega)
    (by split
        · exact le_trans (hour12_le t.hour).2 (by omega)
        · omega)
    (by omega)
    (by split
        · exact pad2_all_digit _ (by omega)
        · exact pad4_all_digit _ (by omega))
    (by split <;> simp [pad2, pad4])
    (by split
        · exact head_notDigit _ (by decide)
        · intro c hc; simp at hc)]
  have hy1 : digitsToNat (if f.twoDigitYear then pad2 (t.year % 100)
      else pad4 t.year) = (if f.twoDigitYear then t.year % 100 else t.year) := by
    split
    · exact digitsToNat_pad2 _ (by omega)
    · exact digitsToNat_pad4 _ (by omega)
  have hy2 : (if f.twoDigitYear then pad2 (t.year % 100)
      else pad4 t.year).length = (if f.twoDigitYear then 2 else 4) := by
    split <;> simp [pad2, pad4]
  rw [hy1, hy2]
  rfl

theorem strptime_combined (f f' : DateFmt) (t : PyDateTime) (hv : ValidDT t) :
    strptimeDT f' (fmtDate f t ++ ' ' :: fmtTime f t) =
      afterTok f' (synthRF f t) := by
  unfold strptimeDT
  rw [tokenize_combined f t hv, Option.some_bind]

theorem synthRF_slots (f : DateFmt) (t : PyDateTime) :
    monthOf f (synthRF f t) = t.month ∧ dayOf f (synthRF f t) = t.day ∧
    lmonthOf f (synthRF f t) = 2 ∧ ldayOf f (synthRF f t) = 2 := by
  rcases f with ⟨df, y2, h12⟩
  cases df <;> exact ⟨rfl, rfl, rfl, rfl⟩

theorem hour12_am (h : Nat) (hh : h < 12) : hour12 h % 12 = h := by
  unfold hour12
  split <;> omega

theorem hour12_pm (h : Nat) (hh1 : 12 ≤ h) (hh2 : h ≤ 23) :
    hour12 h % 12 + 12 = h := by
  unfold hour12
  split <;> omega

theorem mkDT_self (t : PyDateTime) (hv : ValidDT t) (hs : t.second = 0) :
    mkDT t.year t.month t.day t.hour t.minute = some t := by
  obtain ⟨v1, v2, v3, v4, v5, v6, v7, v8, v9⟩ := hv
  unfold mkDT
  rw [if_pos ⟨v1, v2, v3, v4, v5, v6, v7, v8⟩]
  rcases t with ⟨ty, tmo, td, th, tmi, tse⟩
  simp only at hs
  rw [hs]

theorem afterTok_synth_self (f : DateFmt) (t : PyDateTime) (hv : ValidDT t)
    (hy1 : 1969 ≤ t.year) (hy2 : t.year ≤ 2068) (hs : t.second = 0) :
    afterTok f (synthRF f t) = some t := by
  obtain ⟨v1, v2, v3, v4, v5, v6, v7, v8, v9⟩ := hv
  obtain ⟨hm, hd, hlm, hld⟩ := synthRF_slots f t
  have plm : (synthRF f t).lm = 2 := rfl
  have pmi : (synthRF f t).mi = t.minute := rfl
  have plh : (synthRF f t).lh = 2 := rfl
  have hyr : yearResolve f (synthRF f t).y (synthRF f t).ly = some t.year := by
    unfold yearResolve synthRF
    rcases f with ⟨df, y2, h12⟩
    cases y2
    · simp
    · show some (if t.year % 100 ≤ 68 then 2000 + t.year % 100
          else 1900 + t.year % 100) = some t.year
      have hpivot : (if t.year % 100 ≤ 68 then 2000 + t.year % 100
          else 1900 + t.year % 100) = t.year := by
        split <;> omega
      rw [hpivot]
  unfold afterTok
  rw [hm, hd, hlm, hld, plm, pmi]
  rw [if_pos ⟨by omega, v3, v4⟩,
    if_pos ⟨by omega, v5, le_trans v6 (daysInMonth_le_31 _ _)⟩,
    if_pos ⟨by omega, v8⟩]
  cases hyres : yearResolve f (synthRF f t).y (synthRF f t).ly with
  | none => rw [hyr] at hyres; cases hyres
  | some year =>
  rw [hyr] at hyres
  obtain rfl : year = t.year := (Option.some.inj hyres).symm
  dsimp only
  cases h12 : f.twelveHour with
  | false =>
    have ph : (synthRF f t).h = t.hour := by simp [synthRF, h12]
    have ptl : (synthRF f t).tl = [] := by simp [synthRF, h12]
    rw [if_neg (by decide : ¬ (false = true))]
    rw [plh, ph, ptl]
    rw [if_pos ⟨by omega, v7⟩]
    exact mkDT_self t ⟨v1, v2, v3, v4, v5, v6, v7, v8, v9⟩ hs
  | true =>
    have ph : (synthRF f t).h = hour12 t.hour := by simp [synthRF, h12]
    rw [if_pos (rfl : true = true)]
    rw [plh, ph]
    rw [if_pos ⟨by omega, (hour12_le t.hour).1, (hour12_le t.hour).2⟩]
    by_cases hhh : t.hour < 12
    · have ptl : (synthRF f t).tl = [' ', 'A', 'M'] := by
        simp [synthRF, h12, meridiem, hhh]
      rw [ptl, hour12_am t.hour hhh]
      exact mkDT_self t ⟨v1, v2, v3, v4, v5, v6, v7, v8, v9⟩ hs
    · have ptl : (synthRF f t).tl = [' ', 'P', 'M'] := by
        simp [synthRF, h12, meridiem, hhh]
      rw [ptl, hour12_pm t.hour (by omega) v7]
      exact mkDT_self t ⟨v1, v2, v3, v4, v5, v6, v7, v8, v9⟩ hs

theorem yearResolve_mismatch (f f' : DateFmt) (t : PyDateTime)
    (h : f'.twoDigitYear ≠ f.twoDigitYear) :
    yearResolve f' (synthRF f t).y (synthRF f t).ly = none := by
  rcases f with ⟨df, y2, h12⟩
  rcases f' with ⟨df', y2', h12'⟩
  cases y2 <;> cases y2' <;> first | exact absurd rfl h | rfl

theorem monthOf_cross_day (f f' : DateFmt) (t : PyDateTime)
    (hf : f.dayFirst = true) (hf' : f'.dayFirst = false) :
    monthOf f' (synthRF f t) = t.day := by
  simp [monthOf, synthRF, hf, hf']

theorem synthRF_tl_24h (f : DateFmt) (t : PyDateTime)
    (h : f.twelveHour = false) : (synthRF f t).tl = [] := by
  simp [synthRF, h]

theorem tryFormats_cons_none (f' : DateFmt) (fs : List DateFmt) (cs : Chars)
    (h : strptimeDT f' cs = none) :
    tryFormats (f' :: fs) cs = tryFormats fs cs := by
  show (match strptimeDT f' cs with
    | some dt => some dt
    | none => tryFormats fs cs) = tryFormats fs cs
  rw [h]

theorem tryFormats_cons_some (f' : DateFmt) (fs : List DateFmt) (cs : Chars)
    (dt : PyDateTime) (h : strptimeDT f' cs = some dt) :
    tryFormats (f' :: fs) cs = some dt := by
  show (match strptimeDT f' cs with
    | some dt => some dt
    | none => tryFormats fs cs) = some dt
  rw [h]

theorem tryFormats_synth (f : DateFmt) (hf : f ∈ date_formats)
    (t : PyDateTime) (hv : ValidDT t) (hd : 13 ≤ t.day)
    (hy1 : 1969 ≤ t.year) (hy2 : t.year ≤ 2068) (hs : t.second = 0) :
    tryFormats date_formats (fmtDate f t ++ ' ' :: fmtTime f t) = some t := by
  simp only [date_formats, List.mem_cons, List.not_mem_nil, or_false] at hf
  unfold date_formats
  rcases hf with rfl | rfl | rfl | rfl | rfl | rfl | rfl | rfl
  · rw [tryFormats_cons_some _ _ _ _
      (by rw [strptime_combined _ _ t hv]; exact afterTok_synth_self _ t hv hy1 hy2 hs)]
  · rw [tryFormats_cons_none _ _ _
      (by rw [strptime_combined _ _ t hv]
          exact afterTok_none_month _ _
            (by rw [monthOf_cross_day _ _ t rfl rfl]; omega))]
    rw [tryFormats_cons_some _ _ _ _
      (by rw [strptime_combined _ _ t hv]; exact afterTok_synth_self _ t hv hy1 hy2 hs)]
  · rw [tryFormats_cons_none _ _ _
      (by rw [strptime_combined _ _ t hv]
          exact afterTok_none_yearLen _ _ (yearResolve_mismatch _ _ t (by decide)))]
    rw [tryFormats_cons_none _ _ _
      (by rw [strptime_combined _ _ t hv]
          exact afterTok_none_yearLen _ _ (yearResolve_mismatch _ _ t (by decide)))]
    rw [tryFormats_cons_some _ _ _ _
      (by rw [strptime_combined _ _ t hv]; exact afterTok_synth_self _ t hv hy1 hy2 hs)]
  · rw [tryFormats_cons_none _ _ _
      (by rw [strptime_combined _ _ t hv]
          exact afterTok_none_yearLen _ _ (yearResolve_mismatch _ _ t (by decide)))]
    rw [tryFormats_cons_none _ _ _
      (by rw [strptime_combined _ _ t hv]
          exact afterTok_none_yearLen _ _ (yearResolve_mismatch _ _ t (by decide)))]
    rw [tryFormats_cons_none _ _ _
      (by rw [strptime_combined _ _ t hv]
          exact afterTok_none_month _ _
            (by rw [monthOf_cross_day _ _ t rfl rfl]; omega))]
    rw [tryFormats_cons_some _ _ _ _
      (by rw [strptime_combined _ _ t hv]; exact afterTok_synth_self _ t hv hy1 hy2 hs)]
  · rw [tryFormats_cons_none _ _ _
      (by rw [strptime_combined _ _ t hv]
          exact afterTok_none_twelve_nil _ _ rfl (synthRF_tl_24h _ t rfl))]
    rw [tryFormats_cons_none _ _ _
      (by rw [strptime_combined _ _ t hv]
          exact afterTok_none_twelve_nil _ _ rfl (synthRF_tl_24h _ t rfl))]
    rw [tryFormats_cons_none _ _ _
      (by rw [strptime_combined _ _ t hv]
          exact afterTok_none_yearLen _ _ (yearResolve_mismatch _ _ t (by decide)))]
    rw [tryFormats_cons_none _ _ _
      (by rw [strptime_combined _ _ t hv]
          exact afterTok_none_yearLen _ _ (yearResolve_mismatch _ _ t (by decide)))]
    rw [tryFormats_cons_some _ _ _ _
      (by rw [strptime_combined _ _ t hv]; exact afterTok_synth_self _ t hv hy1 hy2 hs)]
  · rw [tryFormats_cons_none _ _ _
      (by rw [strptime_combined _ _ t hv]
          exact afterTok_none_twelve_nil _ _ rfl (synthRF_tl_24h _ t rfl))]
    rw [tryFormats_cons_none _ _ _
      (by rw [strptime_combined _ _ t hv]
          exact afterTok_none_twelve_nil _ _ rfl (synthRF_tl_24h _ t rfl))]
    rw [tryFormats_cons_none _ _ _
      (by rw [strptime_combined _ _ t hv]
          exact afterTok_none_yearLen _ _ (yearResolve_mismatch _ _ t (by decide)))]
    rw [tryFormats_cons_none _ _ _
      (by rw [strptime_combined _ _ t hv]
          exact afterTok_none_yearLen _ _ (yearResolve_mismatch _ _ t (by decide)))]
    rw [tryFormats_cons_none _ _ _
      (by rw [strptime_combined _ _ t hv]
          exact afterTok_none_month _ _
            (by rw [monthOf_cross_day _ _ t rfl rfl]; omega))]
    rw [tryFormats_cons_some _ _ _ _
      (by rw [strptime_combined _ _ t hv]; exact afterTok_synth_self _ t hv hy1 hy2 hs)]
  · rw [tryFormats_cons_none _ _ _
      (by rw [strptime_combined _ _ t hv]
          exact afterTok_none_yearLen _ _ (yearResolve_mismatch _ _ t (by decide)))]
    rw [tryFormats_cons_none _ _ _
      (by rw [strptime_combined _ _ t hv]
          exact afterTok_none_yearLen _ _ (yearResolve_mismatch _ _ t (by decide)))]
    rw [tryFormats_cons_none _ _ _
      (by rw [strptime_combined _ _ t hv]
          exact afterTok_none_twelve_nil _ _ rfl (synthRF_tl_24h _ t rfl))]
    rw [tryFormats_cons_none _ _ _
      (by rw [strptime_combined _ _ t hv]
          exact afterTok_none_twelve_nil _ _ rfl (synthRF_tl_24h _ t rfl))]
    rw [tryFormats_cons_none _ _ _
      (by rw [strptime_combined _ _ t hv]
          exact afterTok_none_yearLen _ _ (yearResolve_mismatch _ _ t (by decide)))]
    rw [tryFormats_cons_none _ _ _
      (by rw [strptime_combined _ _ t hv]
          exact afterTok_none_yearLen _ _ (yearResolve_mismatch _ _ t (by decide)))]
    rw [tryFormats_cons_some _ _ _ _
      (by rw [strptime_combined _ _ t hv]; exact afterTok_synth_self _ t hv hy1 hy2 hs)]
  · rw [tryFormats_cons_none _ _ _
      (by rw [strptime_combined _ _ t hv]
          exact afterTok_none_yearLen _ _ (yearResolve_mismatch _ _ t (by decide)))]
    rw [tryFormats_cons_none _ _ _
      (by rw [strptime_combined _ _ t hv]
          exact afterTok_none_yearLen _ _ (yearResolve_mismatch _ _ t (by decide)))]
    rw [tryFormats_cons_none _ _ _
      (by rw [strptime_combined _ _ t hv]
          exact afterTok_none_twelve_nil _ _ rfl (synthRF_tl_24h _ t rfl))]
    rw [tryFormats_cons_none _ _ _
      (by rw [strptime_combined _ _ t hv]
          exact afterTok_none_twelve_nil _ _ rfl (synthRF_tl_24h _ t rfl))]
    rw [tryFormats_cons_none _ _ _
      (by rw [strptime_combined _ _ t hv]
          exact afterTok_none_yearLen _ _ (yearResolve_mismatch _ _ t (by decide)))]
    rw [tryFormats_cons_none _ _ _
      (by rw [strptime_combined _ _ t hv]
          exact afterTok_none_yearLen _ _ (yearResolve_mismatch _ _ t (by decide)))]
    rw [tryFormats_cons_none _ _ _
      (by rw [strptime_combined _ _ t hv]
          exact afterTok_none_month _ _
            (by rw [monthOf_cross_day _ _ t rfl rfl]; omega))]
    rw [tryFormats_cons_some _ _ _ _
      (by rw [strptime_combined _ _ t hv]; exact afterTok_synth_self _ t hv hy1 hy2 hs)]

theorem validTail_append_colon (rest : Chars) :
    validTailAfterColon (rest ++ [':']) = false := by
  cases rest with
  | nil => rfl
  | cons x xs =>
    cases xs with
    | nil => rfl
    | cons y ys => rfl

theorem scanSender_append_colon (sender : Chars) (hnl : '\n' ∉ sender) :
    scanSender (sender ++ [':']) = some sender := by
  induction sender with
  | nil => rfl
  | cons c rest ih =>
    rw [List.cons_append, scanSender]
    rw [validTail_append_colon rest]
    rw [Bool.and_false, if_neg (by simp)]
    rw [if_neg (fun hc => hnl (List.mem_cons.2 (Or.inl hc.symm)))]
    rw [ih (fun hm => hnl (List.mem_cons_of_mem _ hm))]
    rfl

theorem pad2_mem {c : Char} {n : Nat} (h : n ≤ 99) (hc : c ∈ pad2 n) :
    ∃ k, k ≤ 9 ∧ c = digitChar k := by
  simp only [pad2, List.mem_cons, List.not_mem_nil, or_false] at hc
  rcases hc with rfl | rfl
  · exact ⟨n / 10, by omega, rfl⟩
  · exact ⟨n % 10, by omega, rfl⟩

theorem pad4_mem {c : Char} {n : Nat} (h : n ≤ 9999) (hc : c ∈ pad4 n) :
    ∃ k, k ≤ 9 ∧ c = digitChar k := by
  simp only [pad4, List.mem_cons, List.not_mem_nil, or_false] at hc
  rcases hc with rfl | rfl | rfl | rfl
  · exact ⟨n / 1000, by omega, rfl⟩
  · exact ⟨n / 100 % 10, by omega, rfl⟩
  · exact ⟨n / 10 % 10, by omega, rfl⟩
  · exact ⟨n % 10, by omega, rfl⟩

theorem fmtTime_pred (f : DateFmt) (t : PyDateTime) (hh : t.hour ≤ 23)
    (hm : t.minute ≤ 59) :
    ∀ c ∈ fmtTime f t, (decide (c ≠ ',') && decide (c ≠ ']')) = true := by
  have hX : (if f.twelveHour then hour12 t.hour else t.hour) ≤ 99 := by
    split
    · exact le_trans (hour12_le _).2 (by omega)
    · omega
  intro c hc
  unfold fmtTime at hc
  rw [List.mem_append] at hc
  rcases hc with hc | hc
  · obtain ⟨k, hk, rfl⟩ := pad2_mem hX hc
    obtain ⟨-, -, hc1, hc2, -⟩ := digit_facts k hk
    simp [hc1, hc2]
  · rcases List.mem_cons.1 hc with rfl | hc
    · decide
    · rw [List.mem_append] at hc
      rcases hc with hc | hc
      · obtain ⟨k, hk, rfl⟩ := pad2_mem (by omega : t.minute ≤ 99) hc
        obtain ⟨-, -, hc1, hc2, -⟩ := digit_facts k hk
        simp [hc1, hc2]
      · split at hc
        · rcases List.mem_cons.1 hc with rfl | hc
          · decide
          · unfold meridiem at hc
            split at hc <;>
              (simp only [List.mem_cons, List.not_mem_nil, or_false] at hc <;>
                rcases hc with rfl | rfl <;> decide)
        · simp at hc

theorem fmtDate_pred (f : DateFmt) (t : PyDateTime) (hmo : t.month ≤ 99)
    (hd : t.day ≤ 99) (hy : t.year ≤ 9999) :
    ∀ c ∈ fmtDate f t, (decide (c ≠ ']')) = true := by
  intro c hc
  unfold fmtDate at hc
  rw [List.mem_append] at hc
  rcases hc with hc | hc
  · obtain ⟨k, hk, rfl⟩ := pad2_mem (by split <;> omega) hc
    obtain ⟨-, -, -, hc2, -⟩ := digit_facts k hk
    simp [hc2]
  · rcases List.mem_cons.1 hc with rfl | hc
    · decide
    · rw [List.mem_append] at hc
      rcases hc with hc | hc
      · obtain ⟨k, hk, rfl⟩ := pad2_mem (by split <;> omega) hc
        obtain ⟨-, -, -, hc2, -⟩ := digit_facts k hk
        simp [hc2]
      · rcases List.mem_cons.1 hc with rfl | hc
        · decide
        · have hk : ∃ k, k ≤ 9 ∧ c = digitChar k := by
            split at hc
            · exact pad2_mem (by omega : t.year % 100 ≤ 99) hc
            · exact pad4_mem hy hc
          obtain ⟨k, hk9, rfl⟩ := hk
          obtain ⟨-, -, -, hc2, -⟩ := digit_facts k hk9
          simp [hc2]

theorem fmtTime_ne_nil (f : DateFmt) (t : PyDateTime) : fmtTime f t ≠ [] := by
  simp [fmtTime, pad2]

theorem fmtDate_ne_nil (f : DateFmt) (t : PyDateTime) : fmtDate f t ≠ [] := by
  simp [fmtDate, pad2]

theorem matchHeader_cons (X : Chars) : matchHeader ('[' :: X) =
    (let p1 := X.span (fun c => c ≠ ',' && c ≠ ']')
    if p1.1 = [] then none
    else
      match p1.2 with
      | ',' :: w1 :: r2 =>
        if wsC w1 then
          let p2 := r2.span (fun c => c ≠ ']')
          if p2.1 = [] then none
          else
            match p2.2 with
            | ']' :: w2 :: r4 =>
              if wsC w2 then
                (scanSender r4).map (fun sender => (p1.1, p2.1, sender))
              else none
            | _ => none
        else none
      | _ => none) := rfl

theorem matchHeader_mkHeader (f : DateFmt) (sender : Chars) (t : PyDateTime)
    (hv : ValidDT t) (hnl : '\n' ∉ sender) :
    matchHeader (mkHeader f sender t) =
      some (fmtTime f t, fmtDate f t, sender) := by
  obtain ⟨v1, v2, v3, v4, v5, v6, v7, v8, v9⟩ := hv
  have hspan1 : (fmtTime f t ++ ',' :: (' ' :: (fmtDate f t ++
      ']' :: (' ' :: (sender ++ [':']))))).span
        (fun c => c ≠ ',' && c ≠ ']') =
      (fmtTime f t,
        ',' :: (' ' :: (fmtDate f t ++ ']' :: (' ' :: (sender ++ [':']))))) :=
    span_all_append (fmtTime_pred f t v7 v8)
      (by intro c hc
          rw [List.head?_cons, Option.mem_some_iff] at hc
          rw [← hc]
          decide)
  have hspan2 : (fmtDate f t ++ ']' :: (' ' :: (sender ++ [':']))).span
        (fun c => c ≠ ']') =
      (fmtDate f t, ']' :: (' ' :: (sender ++ [':']))) :=
    span_all_append
      (fmtDate_pred f t (by omega)
        (le_trans (le_trans v6 (daysInMonth_le_31 _ _)) (by omega)) v2)
      (by intro c hc
          rw [List.head?_cons, Option.mem_some_iff] at hc
          rw [← hc]
          decide)
  unfold mkHeader
  rw [matchHeader_cons]
  simp only [hspan1, hspan2, fmtTime_ne_nil f t, fmtDate_ne_nil f t,
    (by decide : wsC ' ' = true), if_true, if_false, ite_false, ite_true,
    scanSender_append_colon sender hnl, Option.map_some']

theorem dropWhile_head_not (p : Char → Bool) (l : Chars)
    (h : ∀ c ∈ l.head?, p c = false) : l.dropWhile p = l := by
  cases l with
  | nil => rfl
  | cons a l => exact List.dropWhile_cons_of_neg (by simp [h a rfl])

theorem pyStrip_eq_self {l : Chars} (h1 : ∀ c ∈ l.head?, wsC c = false)
    (h2 : ∀ c ∈ l.getLast?, wsC c = false) : pyStrip l = l := by
  unfold pyStrip
  rw [dropWhile_head_not wsC l h1]
  rw [dropWhile_head_not wsC l.reverse
    (by rw [List.head?_reverse]; exact h2)]
  exact List.reverse_reverse l

theorem fmtTime_head_not_ws (f : DateFmt) (t : PyDateTime) (hh : t.hour ≤ 23) :
    ∀ c ∈ (fmtTime f t).head?, wsC c = false := by
  have hX : (if f.twelveHour then hour12 t.hour else t.hour) ≤ 99 := by
    split
    · exact le_trans (hour12_le _).2 (by omega)
    · omega
  intro c hc
  rw [show (fmtTime f t).head? =
      some (digitChar ((if f.twelveHour then hour12 t.hour else t.hour) / 10))
    from by simp [fmtTime, pad2], Option.mem_some_iff] at hc
  rw [← hc]
  exact (digit_facts _ (by omega)).2.1

theorem fmtTime_last_not_ws (f : DateFmt) (t : PyDateTime)
    (hm : t.minute ≤ 59) : ∀ c ∈ (fmtTime f t).getLast?, wsC c = false := by
  intro c hc
  rcases f with ⟨df, y2, h12⟩
  cases h12
  · simp [fmtTime, pad2] at hc
    rw [← hc]
    exact (digit_facts _ (by omega)).2.1
  · by_cases hhh : t.hour < 12 <;>
      simp [fmtTime, meridiem, pad2, hhh] at hc <;>
      (rw [← hc]; decide)

theorem fmtDate_head_not_ws (f : DateFmt) (t : PyDateTime)
    (hmo : t.month ≤ 99) (hd : t.day ≤ 99) :
    ∀ c ∈ (fmtDate f t).head?, wsC c = false := by
  intro c hc
  rw [show (fmtDate f t).head? =
      some (digitChar ((if f.dayFirst then t.day else t.month) / 10))
    from by simp [fmtDate, pad2], Option.mem_some_iff] at hc
  rw [← hc]
  refine (digit_facts _ ?_).2.1
  split <;> omega

theorem fmtDate_last_not_ws (f : DateFmt) (t : PyDateTime) (hy : t.year ≤ 9999) :
    ∀ c ∈ (fmtDate f t).getLast?, wsC c = false := by
  intro c hc
  rcases f with ⟨df, y2, h12⟩
  cases y2
  · simp [fmtDate, pad2, pad4] at hc
    rw [← hc]
    exact (digit_facts _ (by omega)).2.1
  · simp [fmtDate, pad2] at hc
    rw [← hc]
    exact (digit_facts _ (by omega)).2.1

theorem mkHeader_last (f : DateFmt) (sender : Chars) (t : PyDateTime) :
    (mkHeader f sender t).getLast? = some ':' := by
  rw [show mkHeader f sender t = (('[' :: fmtTime f t) ++
      (',' :: (' ' :: (fmtDate f t ++ ']' :: (' ' :: (sender ++ [':']))))))
    from by simp [mkHeader]]
  rw [List.getLast?_append_cons]
  rw [show (',' :: (' ' :: (fmtDate f t ++ ']' :: (' ' :: (sender ++ [':']))))) =
      ((',' :: ' ' :: fmtDate f t) ++ (']' :: (' ' :: (sender ++ [':']))))
    from by simp]
  rw [List.getLast?_append_cons]
  rw [show (']' :: (' ' :: (sender ++ [':']))) = ((']' :: ' ' :: sender) ++ [':'])
    from by simp]
  rw [List.getLast?_concat]

theorem pyStrip_mkHeader (f : DateFmt) (sender : Chars) (t : PyDateTime) :
    pyStrip (mkHeader f sender t) = mkHeader f sender t := by
  refine pyStrip_eq_self ?_ ?_
  · intro c hc
    rw [show (mkHeader f sender t).head? = some '[' from by simp [mkHeader],
      Option.mem_some_iff] at hc
    rw [← hc]
    decide
  · intro c hc
    rw [mkHeader_last, Option.mem_some_iff] at hc
    rw [← hc]
    decide

/-- C4 counterexample: formatting `(Alice, 2026-02-01 09:00)` with the second
template (`%d/%m/%Y %I:%M %p`) yields `"[09:00 AM, 01/02/2026] Alice:"`, but
`parse_pre_plain_text` tries `%m/%d/%Y %I:%M %p` first, which also matches
and returns the *different* timestamp 2026-01-02 09:00 — so the synthesized
header does not parse back to the pair used to construct it. -/
theorem c4_counterexample :
    parse_pre_plain_text
        (mkHeader ⟨true, false, true⟩ "Alice".toList ⟨2026, 2, 1, 9, 0, 0⟩) =
      some ("Alice".toList, ⟨2026, 1, 2, 9, 0, 0⟩) ∧
    (⟨2026, 1, 2, 9, 0, 0⟩ : PyDateTime) ≠ ⟨2026, 2, 1, 9, 0, 0⟩ := by
  constructor
  · decide
  · decide

/-- C4 amended: for each of the 8 date-format templates, a header
`"[<time>, <date>] <sender>:"` synthesized from a `(sender, timestamp)` pair
parses back via `parse_pre_plain_text` to exactly that pair, provided the
timestamp's day is ≥ 13 (otherwise an earlier template with the opposite
month/day order can match first), its year lies in 1969-2068 (the `%y`
pivot range, within which 2-digit years round-trip), its seconds are 0 (the
headers carry minute precision), and the sender contains no newline and no
leading/trailing whitespace (the regex groups are stripped). -/
theorem c4_header_roundtrip (f : DateFmt) (hf : f ∈ date_formats)
    (sender : Chars) (t : PyDateTime) (hv : ValidDT t) (hd : 13 ≤ t.day)
    (hy1 : 1969 ≤ t.year) (hy2 : t.year ≤ 2068) (hs : t.second = 0)
    (hsender : pyStrip sender = sender) (hnl : '\n' ∉ sender) :
    parse_pre_plain_text (mkHeader f sender t) = some (sender, t) := by
  obtain ⟨v1, v2, v3, v4, v5, v6, v7, v8, v9⟩ := hv
  have hst : pyStrip (fmtTime f t) = fmtTime f t :=
    pyStrip_eq_self (fmtTime_head_not_ws f t v7) (fmtTime_last_not_ws f t v8)
  have hsd : pyStrip (fmtDate f t) = fmtDate f t :=
    pyStrip_eq_self
      (fmtDate_head_not_ws f t (by omega)
        (le_trans (le_trans v6 (daysInMonth_le_31 _ _)) (by omega)))
      (fmtDate_last_not_ws f t v2)
  unfold parse_pre_plain_text
  rw [pyStrip_mkHeader,
    matchHeader_mkHeader f sender t ⟨v1, v2, v3, v4, v5, v6, v7, v8, v9⟩ hnl]
  dsimp only
  rw [hst, hsd,
    tryFormats_synth f hf t ⟨v1, v2, v3, v4, v5, v6, v7, v8, v9⟩ hd hy1 hy2 hs]
  dsimp only
  rw [hsender]

/-- C4 witness: the first template round-trips a concrete header for
`(Alice, 2026-01-15 09:30)`. -/
theorem c4_header_roundtrip_witness :
    parse_pre_plain_text
        (mkHeader ⟨false, false, true⟩ "Alice".toList
          ⟨2026, 1, 15, 9, 30, 0⟩) =
      some ("Alice".toList, ⟨2026, 1, 15, 9, 30, 0⟩) :=
  c4_header_roundtrip ⟨false, false, true⟩ (by decide) "Alice".toList
    ⟨2026, 1, 15, 9, 30, 0⟩ (by decide) (by decide) (by decide) (by decide)
    (by decide) (by decide) (by decide)

/-! ### `scrape_messages` (Python-side filtering of raw transcript nodes) -/

/-- One raw node extracted from the transcript view by the in-page script:
its `data-pre-plain-text` attribute and its joined body text. -/
structure RawItem where
  pre_plain_text : Chars
  text : Chars
deriving DecidableEq, Repr

/-- Stable insertion of a message into a timestamp-sorted list, placing it
after existing entries with an equal timestamp (so that folding `insertTs`
over a list reproduces the result of Python's stable `list.sort(key=...)`). -/
def insertTs (m : Message) : List Message → List Message
  | [] => [m]
  | x :: xs =>
    if tsLtB m.timestamp x.timestamp then m :: x :: xs
    else x :: insertTs m xs

/-- `parsed_messages.sort(key=lambda m: m["timestamp"])`: a stable ascending
sort by timestamp. -/
def sortByTs (l : List Message) : List Message :=
  l.foldl (fun acc m => insertTs m acc) []

/-- The Python half of `scrape_messages` (`src/main.py` lines 239-255): for
each raw node, parse its header and strip its body text; drop the node if
the header fails to parse or the stripped text is empty; then sort by
timestamp. -/
def scrapeOne (item : RawItem) : Option Message :=
  match parse_pre_plain_text item.pre_plain_text, pyStrip item.text with
  | some (sender, ts), text =>
    if text = [] then none else some ⟨sender, ts, text⟩
  | none, _ => none

def scrape_messages (raw : List RawItem) : List Message :=
  sortByTs (raw.filterMap scrapeOne)

theorem mem_insertTs {m x : Message} {l : List Message}
    (h : x ∈ insertTs m l) : x = m ∨ x ∈ l := by
  induction l with
  | nil =>
    simp only [insertTs, List.mem_cons, List.not_mem_nil, or_false] at h
    exact Or.inl h
  | cons a l ih =>
    rw [insertTs] at h
    split at h
    · rcases List.mem_cons.1 h with rfl | h
      · exact Or.inl rfl
      · exact Or.inr h
    · rcases List.mem_cons.1 h with rfl | h
      · exact Or.inr (List.mem_cons_self _ _)
      · rcases ih h with h | h
        · exact Or.inl h
        · exact Or.inr (List.mem_cons_of_mem _ h)

theorem mem_foldl_insertTs (x : Message) :
    ∀ (l acc : List Message),
      x ∈ l.foldl (fun acc m => insertTs m acc) acc → x ∈ acc ∨ x ∈ l := by
  intro l
  induction l with
  | nil => intro acc hacc; exact Or.inl hacc
  | cons a l ih =>
    intro acc hacc
    rw [List.foldl_cons] at hacc
    rcases ih (insertTs a acc) hacc with hc | hc
    · rcases mem_insertTs hc with rfl | hc
      · exact Or.inr (List.mem_cons_self _ _)
      · exact Or.inl hc
    · exact Or.inr (List.mem_cons_of_mem _ hc)

theorem mem_sortByTs {x : Message} {l : List Message}
    (h : x ∈ sortByTs l) : x ∈ l := by
  rcases mem_foldl_insertTs x l [] h with hc | hc
  · simp at hc
  · exact hc

theorem head_dropWhile_not_ws (p : Char → Bool) (l : Chars) :
    ∀ c ∈ (l.dropWhile p).head?, p c = false := by
  induction l with
  | nil => intro c hc; simp at hc
  | cons a l ih =>
    intro c hc
    by_cases ha : p a
    · rw [List.dropWhile_cons_of_pos ha] at hc
      exact ih c hc
    · rw [List.dropWhile_cons_of_neg ha] at hc
      rw [List.head?_cons, Option.mem_some_iff] at hc
      rw [← hc]
      simpa using ha

theorem dropWhile_suffix_eq (p : Char → Bool) (l : Chars) :
    ∃ pre, pre ++ l.dropWhile p = l := by
  induction l with
  | nil => exact ⟨[], rfl⟩
  | cons a l ih =>
    by_cases ha : p a
    · obtain ⟨pre, hp⟩ := ih
      exact ⟨a :: pre,
        by rw [List.dropWhile_cons_of_pos ha, List.cons_append, hp]⟩
    · exact ⟨[], by rw [List.dropWhile_cons_of_neg ha, List.nil_append]⟩

theorem pyStrip_idem (l : Chars) : pyStrip (pyStrip l) = pyStrip l := by
  cases hr : (l.dropWhile wsC).reverse.dropWhile wsC with
  | nil =>
    have hps : pyStrip l = [] := by
      unfold pyStrip
      rw [hr]
      rfl
    rw [hps]
    rfl
  | cons b rbody =>
    have hps : pyStrip l = (b :: rbody).reverse := by
      unfold pyStrip
      rw [hr]
    rw [hps]
    refine pyStrip_eq_self ?_ ?_
    · intro c hc
      rw [List.head?_reverse] at hc
      obtain ⟨pre, hpre⟩ := dropWhile_suffix_eq wsC (l.dropWhile wsC).reverse
      rw [hr] at hpre
      have h1 : ((b :: rbody) : Chars).getLast? =
          ((l.dropWhile wsC).reverse).getLast? := by
        rw [← hpre, List.getLast?_append_cons]
      have h2 : ((l.dropWhile wsC).reverse).getLast? =
          (l.dropWhile wsC).head? := by
        rw [← List.head?_reverse, List.reverse_reverse]
      rw [h1, h2] at hc
      exact head_dropWhile_not_ws wsC l c hc
    · intro c hc
      have h3 : (((b :: rbody) : Chars).reverse).getLast? =
          ((b :: rbody) : Chars).head? := by
        rw [← List.head?_reverse, List.reverse_reverse]
      rw [h3, List.head?_cons, Option.mem_some_iff] at hc
      have hb := head_dropWhile_not_ws wsC (l.dropWhile wsC).reverse
      rw [hr] at hb
      rw [← hc]
      exact hb b (Option.mem_some_iff.2 rfl)

theorem scrapeOne_none_of_empty (item : RawItem)
    (h : pyStrip item.text = []) : scrapeOne item = none := by
  unfold scrapeOne
  cases hp : parse_pre_plain_text item.pre_plain_text with
  | none => rfl
  | some p =>
    rcases p with ⟨s, ts⟩
    dsimp only
    rw [h, if_pos rfl]

theorem scrapeOne_some {item : RawItem} {m : Message}
    (h : scrapeOne item = some m) :
    m.text ≠ [] ∧ m.text = pyStrip item.text := by
  unfold scrapeOne at h
  cases hp : parse_pre_plain_text item.pre_plain_text with
  | none =>
    rw [hp] at h
    simp at h
  | some p =>
    rcases p with ⟨s, ts⟩
    rw [hp] at h
    dsimp only at h
    split at h
    · simp at h
    · rename_i hne
      obtain rfl : m = ⟨s, ts, pyStrip item.text⟩ := (Option.some.inj h).symm
      exact ⟨hne, rfl⟩

/-- C9: a raw node whose body text is empty after trimming contributes no
message — dropping it leaves `scrape_messages` unchanged, even when its
header parses successfully (no assumption on the header is needed) — and
consequently every returned message carries a non-empty, already-trimmed
text. -/
theorem c9_scrape_drops_empty_text (xs ys : List RawItem) (item : RawItem) :
    (pyStrip item.text = [] →
      scrape_messages (xs ++ item :: ys) = scrape_messages (xs ++ ys)) ∧
    (∀ raw, ∀ m ∈ scrape_messages raw,
      m.text ≠ [] ∧ pyStrip m.text = m.text) := by
  constructor
  · intro hempty
    unfold scrape_messages
    rw [List.filterMap_append, List.filterMap_append,
      List.filterMap_cons_none (scrapeOne_none_of_empty item hempty)]
  · intro raw m hm
    have hm2 := mem_sortByTs hm
    rw [List.mem_filterMap] at hm2
    obtain ⟨item2, _, hf⟩ := hm2
    obtain ⟨hne, htext⟩ := scrapeOne_some hf
    refine ⟨hne, ?_⟩
    rw [htext, pyStrip_idem]

/-- C9 witness: a node with a perfectly parsable header but whitespace-only
body is excluded — scraping just that node returns no messages. -/
theorem c9_scrape_drops_empty_text_witness :
    scrape_messages [⟨"[09:00 AM, 01/02/2026] Alice:".toList, [' ', ' ']⟩] =
      [] := by
  have h := (c9_scrape_drops_empty_text [] []
    ⟨"[09:00 AM, 01/02/2026] Alice:".toList, [' ', ' ']⟩).1 (by decide)
  simpa using h

/-! ### Cursor persistence (`save_last_processed_timestamp` /
`load_last_processed_timestamp`) -/

/-- Fixed-width read of two decimal digits. -/
def read2 : Chars → Option (Nat × Chars)
  | a :: b :: r =>
    if a.isDigit && b.isDigit then
      some (10 * digitVal a + digitVal b, r)
    else none
  | _ => none

/-- Fixed-width read of four decimal digits. -/
def read4 : Chars → Option (Nat × Chars)
  | a :: b :: c :: d :: r =>
    if a.isDigit && b.isDigit && c.isDigit && d.isDigit then
      some (1000 * digitVal a + 100 * digitVal b + 10 * digitVal c +
        digitVal d, r)
    else none
  | _ => none

/-- `datetime(...)` validation for a parsed ISO string, seconds included. -/
def mkDTfull (y mo d h mi s : Nat) : Option PyDateTime :=
  if 1 ≤ y ∧ y ≤ 9999 ∧ 1 ≤ mo ∧ mo ≤ 12 ∧ 1 ≤ d ∧ d ≤ daysInMonth y mo ∧
      h ≤ 23 ∧ mi ≤ 59 ∧ s ≤ 59 then
    some ⟨y, mo, d, h, mi, s⟩
  else none

/-- `datetime.fromisoformat` on the strings this pipeline stores:
`YYYY-MM-DD[<sep>HH:MM[:SS]]` with fixed-width decimal fields, any single
separator character, and full validation of the resulting datetime.
(Fractional seconds never occur here: `isoformat` omits them when the
microsecond field is 0.) -/
def fromisoformat (cs : Chars) : Option PyDateTime := do
  let (y, cs1) ← read4 cs
  let cs2 ← expectChar '-' cs1
  let (mo, cs3) ← read2 cs2
  let cs4 ← expectChar '-' cs3
  let (d, cs5) ← read2 cs4
  match cs5 with
  | [] => mkDTfull y mo d 0 0 0
  | _ :: rest => do
    let (h, cs6) ← read2 rest
    let cs7 ← expectChar ':' cs6
    let (mi, cs8) ← read2 cs7
    match cs8 with
    | [] => mkDTfull y mo d h mi 0
    | c :: cs9 =>
      if c = ':' then do
        let (s, cs10) ← read2 cs9
        match cs10 with
        | [] => mkDTfull y mo d h mi s
        | _ => none
      else none

/-- `save_last_processed_timestamp`: the `last_message_timestamp` value
written to `last_processed.json` is `ts.isoformat()` (JSON string
encoding/decoding round-trips it unchanged: it contains only digits and
`-`, `:`, `T`). -/
def save_last_processed_timestamp (ts : PyDateTime) : Chars := isoformat ts

/-- `load_last_processed_timestamp` reading a store whose
`last_message_timestamp` field holds `stored`: a falsy (empty) value gives
`None`, and so does a `ValueError` from `datetime.fromisoformat`. -/
def load_last_processed_timestamp (stored : Chars) : Option PyDateTime :=
  if stored = [] then none else fromisoformat stored

theorem read2_pad2 (n : Nat) (h : n ≤ 99) (r : Chars) :
    read2 (pad2 n ++ r) = some (n, r) := by
  rw [show pad2 n ++ r = digitChar (n / 10) :: digitChar (n % 10) :: r
    from rfl]
  rw [read2]
  rw [(digit_facts (n / 10) (by omega)).1, (digit_facts (n % 10) (by omega)).1]
  rw [(digit_facts (n / 10) (by omega)).2.2.2.2.2.2.2,
    (digit_facts (n % 10) (by omega)).2.2.2.2.2.2.2]
  simp only [Bool.and_self, if_true, ite_true]
  have : 10 * (n / 10) + n % 10 = n := by omega
  rw [this]

theorem read4_pad4 (n : Nat) (h : n ≤ 9999) (r : Chars) :
    read4 (pad4 n ++ r) = some (n, r) := by
  rw [show pad4 n ++ r = digitChar (n / 1000) :: digitChar (n / 100 % 10) ::
    digitChar (n / 10 % 10) :: digitChar (n % 10) :: r from rfl]
  rw [read4]
  rw [(digit_facts (n / 1000) (by omega)).1,
    (digit_facts (n / 100 % 10) (by omega)).1,
    (digit_facts (n / 10 % 10) (by omega)).1,
    (digit_facts (n % 10) (by omega)).1]
  rw [(digit_facts (n / 1000) (by omega)).2.2.2.2.2.2.2,
    (digit_facts (n / 100 % 10) (by omega)).2.2.2.2.2.2.2,
    (digit_facts (n / 10 % 10) (by omega)).2.2.2.2.2.2.2,
    (digit_facts (n % 10) (by omega)).2.2.2.2.2.2.2]
  simp only [Bool.and_self, if_true, ite_true]
  have : 1000 * (n / 1000) + 100 * (n / 100 % 10) + 10 * (n / 10 % 10) +
      n % 10 = n := by omega
  rw [this]

/-- C10: cursor persistence round-trips — loading immediately after saving a
(valid) datetime returns exactly that datetime: `isoformat` writes
`YYYY-MM-DDTHH:MM:SS` and `fromisoformat` parses it back field by field. -/
theorem c10_cursor_roundtrip (t : PyDateTime) (hv : ValidDT t) :
    load_last_processed_timestamp (save_last_processed_timestamp t) =
      some t := by
  obtain ⟨v1, v2, v3, v4, v5, v6, v7, v8, v9⟩ := hv
  unfold load_last_processed_timestamp save_last_processed_timestamp
  rw [if_neg (by simp [isoformat, pad4])]
  unfold isoformat fromisoformat
  rw [read4_pad4 t.year v2 _]
  simp only [Option.bind_eq_bind, Option.some_bind]
  rw [expectChar_cons]
  simp only [Option.some_bind]
  rw [read2_pad2 t.month (by omega) _]
  simp only [Option.some_bind]
  rw [expectChar_cons]
  simp only [Option.some_bind]
  rw [read2_pad2 t.day
    (le_trans (le_trans v6 (daysInMonth_le_31 _ _)) (by omega)) _]
  simp only [Option.some_bind]
  rw [read2_pad2 t.hour (by omega) _]
  simp only [Option.bind_eq_bind, Option.some_bind]
  rw [expectChar_cons]
  simp only [Option.some_bind]
  rw [read2_pad2 t.minute (by omega) _]
  simp only [Option.some_bind]
  rw [if_pos trivial]
  rw [show pad2 t.second = pad2 t.second ++ [] from (List.append_nil _).symm]
  rw [read2_pad2 t.second (by omega) []]
  simp only [Option.some_bind]
  unfold mkDTfull
  rw [if_pos ⟨v1, v2, v3, v4, v5, v6, v7, v8, v9⟩]

/-- C10 witness: a concrete round trip through the stored ISO string. -/
theorem c10_cursor_roundtrip_witness :
    load_last_processed_timestamp
        (save_last_processed_timestamp ⟨2026, 1, 2, 9, 0, 0⟩) =
      some ⟨2026, 1, 2, 9, 0, 0⟩ :=
  c10_cursor_roundtrip ⟨2026, 1, 2, 9, 0, 0⟩ (by decide)
